import Mathlib

/-!
Verification of the anp-cli command-line argument parsing library.

The Rust sources (`option.rs`, `parser.rs`, `cmd.rs`, `util.rs`, `error.rs`)
are shallowly embedded here.  Strings are modelled as `List Char`; where the
Rust code indexes or slices a `&str` by *byte* position the embedding computes
UTF-8 byte offsets explicitly (`utf8_size`, `slice_from_byte`) and produces an
explicit `abort` outcome exactly where the Rust slice would panic on a
non-char-boundary index.  `Rc<RefCell<AnpOption>>` cells of the registry are
modelled as indices into a template store `tstore : List AnpOption`;
`Rc<HashRefCellGroup>` cells as indices into a group store
`gstore : List OptionGroup`.  The option instances pushed into the
`CommandLine` are fresh cells in Rust; they are modelled as a list
`cmdOpts : List AnpOption`, with the parser's `current_option` (which in Rust
aliases the most recently pushed cell) modelled as an index into that list.
-/

set_option autoImplicit false

/-- Strings as lists of characters (Rust `&str`/`String` contents). -/
abbrev Str := List Char

/-- Conversion helper for writing concrete tokens. -/
def str (s : String) : Str := s.data

/-- Number of bytes of the UTF-8 encoding of a character
(Rust `char::len_utf8`). -/
def utf8_size (c : Char) : Nat :=
  if c.val < 0x80 then 1
  else if c.val < 0x800 then 2
  else if c.val < 0x10000 then 3
  else 4

/-- Byte length of the UTF-8 encoding of a string (Rust `str::len`). -/
def utf8_len (s : Str) : Nat := (s.map utf8_size).sum

/-- Convert a byte index into a character position: `some k` when the byte
index falls on the boundary in front of the `k`-th character, `none` when it
falls strictly inside a multi-byte character (where a Rust slice panics). -/
def byte_to_char_pos : Str → Nat → Option Nat
  | _, 0 => some 0
  | [], _ + 1 => none
  | c :: cs, b + 1 =>
    if utf8_size c ≤ b + 1 then
      (byte_to_char_pos cs (b + 1 - utf8_size c)).map (· + 1)
    else none

/-- Rust `&s[b..]`: the suffix starting at byte `b`, or `none` (panic) when
`b` is not a character boundary. -/
def slice_from_byte (s : Str) (b : Nat) : Option Str :=
  (byte_to_char_pos s b).map (fun k => s.drop k)

/-- Split a string at the first occurrence of a character: returns the part
before and the part after (separator consumed).  This is the character-level
counterpart of Rust `s.find(c)` followed by slicing at the returned byte
index and at that index plus one; the two agree whenever the found character
is consumed whole (the call sites that drop only one byte of a possibly
multi-byte separator are modelled with an explicit abort). -/
def split_first (sep : Char) : Str → Option (Str × Str)
  | [] => none
  | c :: cs =>
    if c = sep then some ([], cs)
    else (split_first sep cs).map (fun p => (c :: p.1, p.2))

theorem split_first_snd_lt {sep : Char} :
    ∀ {l a b : Str}, split_first sep l = some (a, b) → b.length < l.length := by
  intro l
  induction l with
  | nil => intro a b h; simp [split_first] at h
  | cons c cs ih =>
    intro a b h
    by_cases hc : c = sep
    · simp [split_first, hc] at h
      simp [← h.2]
    · cases hsp : split_first sep cs with
      | none => simp [split_first, hc, hsp] at h
      | some p =>
        simp [split_first, hc, hsp] at h
        have hlt := @ih p.1 p.2 (by rw [hsp])
        rw [← h.2]
        simpa [List.length_cons] using Nat.lt_succ_of_lt hlt

/-- ASCII lower-casing of one character.  Rust `str::to_lowercase` performs
full Unicode lowering; every string the parser compares case-insensitively
("yes"/"true") is ASCII, where the two coincide. -/
def to_lower_ch (c : Char) : Char :=
  if 'A' ≤ c ∧ c ≤ 'Z' then Char.ofNat (c.toNat + 32) else c

/-- Lower-case a string (Rust `to_lowercase` restricted to ASCII). -/
def to_lower (s : Str) : Str := s.map to_lower_ch

/-- `Util::strip_leading_hyphens`. -/
def strip_leading_hyphens (s : Str) : Str :=
  if (str "--").isPrefixOf s then s.drop 2
  else if (str "-").isPrefixOf s then s.drop 1
  else s

/-- `Util::strip_leading_and_trailing_quotes`. -/
def strip_leading_and_trailing_quotes (s : Str) : Str :=
  if utf8_len s > 1 ∧ s.head? = some '"' ∧ s.getLast? = some '"' ∧
      ¬ '"' ∈ (s.drop 1).dropLast then
    (s.drop 1).dropLast
  else s

/-- `ArgCount` from `option.rs`. -/
inductive ArgCount where
  | fixed (n : Nat)
  | uninitialized
  | unlimited
  deriving DecidableEq, Repr

/-- `ArgCount::get_fix_unchecked`.  The Rust function panics on a non-fixed
value; every call site guards it behind `is_fix`, so the default `0` returned
here for the other constructors is never observed. -/
def ArgCount.get_fix_unchecked : ArgCount → Nat
  | .fixed n => n
  | _ => 0

/-- `ArgCount::is_fix`. -/
def ArgCount.is_fix : ArgCount → Bool
  | .fixed _ => true
  | _ => false

/-- `ArgCount::is_uninitialized`. -/
def ArgCount.is_uninitialized : ArgCount → Bool
  | .uninitialized => true
  | _ => false

/-- `ArgCount::is_unlimited`. -/
def ArgCount.is_unlimited : ArgCount → Bool
  | .unlimited => true
  | _ => false

/-- `AnpOption` from `option.rs`. -/
structure AnpOption where
  option : Option Str
  description : Option Str
  long_option : Option Str
  arg_name : Option Str
  required : Bool
  optional_arg : Bool
  arg_count : ArgCount
  value_sep : Option Char
  values : List Str
  deriving DecidableEq, Repr

/-- `OptionErr` from `error.rs`: an optional offending-option snapshot plus a
description. -/
structure OptionErr where
  option : Option AnpOption
  description : String
  deriving DecidableEq, Repr

/-- Outcome of an option-level mutation (`Result<(), OptionErr>` in Rust,
plus an explicit `abort` for the panics of byte slicing). -/
inductive ORes where
  | ok (o : AnpOption)
  | err (e : OptionErr)
  | abort
  deriving DecidableEq, Repr

/-- `AnpOption::has_arg`. -/
def AnpOption.has_arg (o : AnpOption) : Bool :=
  o.arg_count.is_unlimited ||
    (o.arg_count.is_fix && o.arg_count.get_fix_unchecked > 0)

/-- `AnpOption::has_args`. -/
def AnpOption.has_args (o : AnpOption) : Bool :=
  o.arg_count.is_unlimited ||
    (o.arg_count.is_fix && o.arg_count.get_fix_unchecked > 1)

/-- `AnpOption::has_optional_arg`. -/
def AnpOption.has_optional_arg (o : AnpOption) : Bool := o.optional_arg

/-- `AnpOption::is_required`. -/
def AnpOption.is_required (o : AnpOption) : Bool := o.required

/-- `AnpOption::has_no_value`. -/
def AnpOption.has_no_value (o : AnpOption) : Bool := o.values.isEmpty

/-- `AnpOption::accepts_arg`. -/
def AnpOption.accepts_arg (o : AnpOption) : Bool :=
  if !(o.has_arg || o.has_args || o.has_optional_arg) then false
  else if o.arg_count.is_uninitialized then false
  else if o.arg_count.is_fix &&
      o.values.length ≥ o.arg_count.get_fix_unchecked then false
  else true

/-- `AnpOption::requires_arg`. -/
def AnpOption.requires_arg (o : AnpOption) : Bool :=
  if o.optional_arg then false
  else if o.arg_count.is_unlimited then o.values.isEmpty
  else o.accepts_arg

/-- `AnpOption::get_key`: the short name when present, the long name
otherwise.  The builder guarantees at least one name exists; the `[]`
fallback for the impossible both-`none` case is never observed. -/
def AnpOption.get_key (o : AnpOption) : Str :=
  match o.option with
  | some k => k
  | none => o.long_option.getD []

/-- `AnpOption::get_opt`. -/
def AnpOption.get_opt (o : AnpOption) : Option Str := o.option

/-- `AnpOption::get_long_opt`. -/
def AnpOption.get_long_opt (o : AnpOption) : Option Str := o.long_option

/-- `impl Clone for AnpOption`: all declaration fields are copied but the
accumulated `values` are reset to the empty vector. -/
def AnpOption.clone (o : AnpOption) : AnpOption := { o with values := [] }

/-- `AnpOption::add` (private): push one value, failing when the option no
longer accepts an argument.  `OptionErr::of` snapshots the option through the
custom `Clone`, which resets `values`. -/
def AnpOption.add (o : AnpOption) (v : Str) : ORes :=
  if !o.accepts_arg then .err ⟨some o.clone, "cannot add value, list full"⟩
  else .ok { o with values := o.values ++ [v] }

/-- The `while let Some(i) = value.find(sep)` loop of
`AnpOption::process_value`, written with an explicit fuel counter so that it
is structurally recursive (and hence kernel-evaluable); each iteration
strictly shortens the residual value, so the `value.length + 1` fuel that
`pv_loop` supplies can never run out and the out-of-fuel `abort` arm is
unreachable.  The Rust loop advances with `value = &value[i + 1..]` where
`i` is the byte index of the separator; when the separator occupies more
than one byte that slice starts inside it and panics, modelled by
`abort`. -/
def AnpOption.pv_loop_fuel : Nat → AnpOption → Char → Str → ORes
  | 0, _, _, _ => .abort
  | fuel + 1, o, sep, value =>
    match split_first sep value with
    | none => o.add value
    | some (a, b) =>
      if o.arg_count.is_fix &&
          o.values.length = o.arg_count.get_fix_unchecked - 1 then
        o.add value
      else
        match o.add a with
        | .ok o' =>
          if utf8_size sep = 1 then AnpOption.pv_loop_fuel fuel o' sep b
          else .abort
        | r => r

/-- The separator loop of `AnpOption::process_value`. -/
def AnpOption.pv_loop (o : AnpOption) (sep : Char) (value : Str) : ORes :=
  AnpOption.pv_loop_fuel (value.length + 1) o sep value

/-- `AnpOption::process_value`. -/
def AnpOption.process_value (o : AnpOption) (value : Str) : ORes :=
  match o.value_sep with
  | none => o.add value
  | some sep => o.pv_loop sep value

/-- `AnpOption::add_value_for_processing`. -/
def AnpOption.add_value_for_processing (o : AnpOption) (value : Str) : ORes :=
  if o.arg_count.is_uninitialized then .err ⟨some o.clone, "no arg allowed"⟩
  else o.process_value value

/-- `OptionGroup` from `option.rs`.  `option_map` maps member keys to
template-store indices (the shared `Rc<RefCell<AnpOption>>` cells). -/
structure OptionGroup where
  option_map : List (Str × Nat)
  selected : Option Str
  required : Bool
  deriving DecidableEq, Repr

/-- `OptionGroup::is_required`. -/
def OptionGroup.is_required (g : OptionGroup) : Bool := g.required

/-- `OptionGroup::get_selected`. -/
def OptionGroup.get_selected (g : OptionGroup) : Option Str := g.selected

/-- `OptionGroup::set_selected`. -/
def OptionGroup.set_selected (g : OptionGroup) (option : Option AnpOption) :
    Except OptionErr OptionGroup :=
  match option with
  | none => .ok { g with selected := none }
  | some o =>
    match g.selected with
    | some sel =>
      if sel ≠ o.get_key then
        .error ⟨some o.clone, "option group already selected"⟩
      else .ok { g with selected := some o.get_key }
    | none => .ok { g with selected := some o.get_key }

/-- `Required` from `option.rs`: a pending obligation is either a single
option key or a whole group (a shared group cell, here its store index). -/
inductive Required where
  | optKey (key : Str)
  | optGroup (gid : Nat)
  deriving DecidableEq, Repr

/-- Association-list lookup (Rust `HashMap::get`). -/
def alist_get {α : Type} (m : List (Str × α)) (k : Str) : Option α :=
  (m.find? (fun p => p.1 == k)).map (·.2)

/-- Association-list insertion (Rust `HashMap::insert`): replace the binding
in place when the key is present, append otherwise.  A `HashMap` has no
observable order; this is the determinisation used throughout. -/
def alist_insert {α : Type} (m : List (Str × α)) (k : Str) (v : α) :
    List (Str × α) :=
  match m with
  | [] => [(k, v)]
  | p :: rest =>
    if p.1 == k then (k, v) :: rest else p :: alist_insert rest k v

/-- Key-set equality of two `option_map`s (Rust derives `PartialEq` for
`OptionGroup` by comparing the key sets as `HashSet`s). -/
def keyset_eqb (m1 m2 : List (Str × Nat)) : Bool :=
  m1.all (fun p => m2.any (fun q => q.1 == p.1)) &&
    m2.all (fun p => m1.any (fun q => q.1 == p.1))

/-- `impl PartialEq for OptionGroup`: required flag, selected member and the
member key set. -/
def group_eqb (g1 g2 : OptionGroup) : Bool :=
  g1.required == g2.required && g1.selected == g2.selected &&
    keyset_eqb g1.option_map g2.option_map

/-- `impl PartialEq for Required`, evaluated against a group store: key
obligations compare by key, group obligations dereference the two group
cells and compare them structurally. -/
def required_eqb (gstore : List OptionGroup) : Required → Required → Bool
  | .optKey a, .optKey b => a == b
  | .optGroup i, .optGroup j =>
    match gstore.get? i, gstore.get? j with
    | some gi, some gj => group_eqb gi gj
    | _, _ => false
  | _, _ => false

/-- Remove the first list entry satisfying a predicate (the
`iter().position` / `remove(pos)` pattern used on `required_opts` and
`expected_opts`). -/
def remove_first {α : Type} (p : α → Bool) : List α → List α
  | [] => []
  | a :: rest => if p a then rest else a :: remove_first p rest

/-- `Options` from `option.rs`.  The two lookup tables and the group
membership map hold store indices in place of shared `Rc` cells. -/
structure Options where
  short_opts : List (Str × Nat)
  long_opts : List (Str × Nat)
  required_opts : List Required
  option_groups : List (Str × Nat)
  defaults : Option (List (Str × Str))
  deriving DecidableEq, Repr

/-- `Options::new`. -/
def Options.new : Options := ⟨[], [], [], [], none⟩

/-- `Options::has_defaults`. -/
def Options.has_defaults (o : Options) : Bool := o.defaults.isSome

/-- `Options::has_short_option`. -/
def Options.has_short_option (o : Options) (opt : Str) : Bool :=
  (alist_get o.short_opts (strip_leading_hyphens opt)).isSome

/-- `Options::has_long_option`. -/
def Options.has_long_option (o : Options) (opt : Str) : Bool :=
  (alist_get o.long_opts (strip_leading_hyphens opt)).isSome

/-- `Options::has_option`. -/
def Options.has_option (o : Options) (opt : Str) : Bool :=
  let k := strip_leading_hyphens opt
  (alist_get o.short_opts k).isSome || (alist_get o.long_opts k).isSome

/-- `Options::get_option`: short-name table first, then long-name table. -/
def Options.get_option (o : Options) (opt : Str) : Option Nat :=
  let k := strip_leading_hyphens opt
  match alist_get o.short_opts k with
  | some i => some i
  | none => alist_get o.long_opts k

/-- `Options::get_matching_options`: an exact long-option key short-circuits
to itself; otherwise all long keys having the text as a prefix. -/
def Options.get_matching_options (o : Options) (opt : Str) : List Str :=
  let k := strip_leading_hyphens opt
  if (alist_get o.long_opts k).isSome then [k]
  else (o.long_opts.filter (fun p => k.isPrefixOf p.1)).map (·.1)

/-- `Options::get_option_group`, keyed by the option's key. -/
def Options.get_option_group (o : Options) (opt : AnpOption) : Option Nat :=
  alist_get o.option_groups opt.get_key

/-- Table bookkeeping of `Options::add_option_inner` for a cell that lives in
the store at index `id`: insert into the long table when a long name exists,
refresh the required-obligation entry when the option is required, and always
insert into the short table under the option's key.  (Comparing an obligation
against `Required::OptKey` never dereferences a group cell, so the group
store passed to `required_eqb` is irrelevant here.) -/
def Options.add_option_inner_id (o : Options) (opt : AnpOption) (id : Nat) :
    Options :=
  let long' := match opt.get_long_opt with
    | some l => alist_insert o.long_opts l id
    | none => o.long_opts
  let req' :=
    if opt.is_required then
      remove_first (fun r => required_eqb [] r (.optKey opt.get_key))
        o.required_opts ++ [.optKey opt.get_key]
    else o.required_opts
  { o with
      long_opts := long'
      required_opts := req'
      short_opts := alist_insert o.short_opts opt.get_key id }

/-- `Options::add_option` / `add_option_inner` for a freshly built option: a
new template cell is appended to the store and registered in the tables. -/
def Options.add_option (o : Options) (tstore : List AnpOption)
    (opt : AnpOption) : Options × List AnpOption :=
  (o.add_option_inner_id opt tstore.length, tstore ++ [opt])

/-- `Options::add_option_group`: append the group cell, record the group
obligation when required, then for each member clear its `required` flag,
insert it into the lookup tables (sharing the group's cell) and record its
group membership.  Members are taken in a fixed list order (a `HashMap` has
no observable order) and assumed to have pairwise distinct keys, as a group
built by `OptionGroup::add_option` has. -/
def Options.add_option_group (o : Options) (tstore : List AnpOption)
    (gstore : List OptionGroup) (members : List AnpOption)
    (grequired : Bool) : Options × List AnpOption × List OptionGroup :=
  let gid := gstore.length
  let base := tstore.length
  let cells := members.map (fun m => { m with required := false })
  let gmap := (List.range cells.length).foldl
    (fun acc i =>
      match cells.get? i with
      | some m => alist_insert acc m.get_key (base + i)
      | none => acc) []
  let o1 := { o with required_opts :=
    if grequired then o.required_opts ++ [.optGroup gid] else o.required_opts }
  let ofin := (List.range cells.length).foldl
    (fun acc i =>
      match cells.get? i with
      | some m =>
        let acc' := acc.add_option_inner_id m (base + i)
        { acc' with option_groups :=
            alist_insert acc'.option_groups m.get_key gid }
      | none => acc) o1
  (ofin, tstore ++ cells, gstore ++ [⟨gmap, none, grequired⟩])

/-- `Options::get_required_options`. -/
def Options.get_required_options (o : Options) : List Required :=
  o.required_opts

/-- `CommandLine` from `cmd.rs`: positional arguments and the matched option
instances, in match order. -/
structure CommandLine where
  args : List Str
  options : List AnpOption
  deriving DecidableEq, Repr

/-- `CommandLine::resolve_option` / `has_option`: the first matched instance
whose short or long name equals the query. -/
def cmd_has_option (opts : List AnpOption) (name : Str) : Bool :=
  opts.any (fun o => o.get_opt == some name || o.get_long_opt == some name)

/-- `ParseErr` from `error.rs`. -/
inductive ParseErr where
  | missingOption (opts : List Required)
  | missingArgument (option : AnpOption)
  | processingErr (desc : String) (source : Option OptionErr)
  | ambiguousOption (input_opt : Str) (matching_opts : List Str)
  | unrecognizedOption (opt : Str)
  | undefinedDefaultOption (option : Str) (value : Str)
  deriving DecidableEq, Repr

/-- Rendering of a pending obligation (`impl Display for Required`): a key
renders as itself, a group renders as the fold of its members' keys joined
with " | ".  Needs both stores to dereference the group and its member
cells. -/
def required_render (tstore : List AnpOption) (gstore : List OptionGroup)
    (r : Required) : String :=
  match r with
  | .optKey k => String.mk k
  | .optGroup gid =>
    match gstore.get? gid with
    | none => ""
    | some g =>
      g.option_map.foldl (fun a p =>
        let key := match tstore.get? p.2 with
          | some o => String.mk o.get_key
          | none => ""
        if a.isEmpty then key else a ++ " | " ++ key) ""

/-- `impl Display for OptionErr`. -/
def option_err_render (e : OptionErr) : String :=
  match e.option with
  | some o => "for option '" ++ String.mk o.get_key ++ "', " ++ e.description
  | none => e.description

/-- `impl Display for ParseErr`.  The `MissingOption` arm calls
`opt_list.first().unwrap()` — in Rust that panics on an empty list, hence the
`Option` result; for a non-empty list only the FIRST obligation is printed. -/
def parse_err_render (tstore : List AnpOption) (gstore : List OptionGroup) :
    ParseErr → Option String
  | .missingOption opts =>
    match opts with
    | [] => none
    | r :: _ =>
      some ("parse error, missing option '" ++
        required_render tstore gstore r ++ "'")
  | .missingArgument o =>
    some ("parse error, missing argument for option '" ++
      String.mk o.get_key ++ "'")
  | .processingErr desc source =>
    some ("parse error, " ++
      (match source with
       | some e => option_err_render e
       | none => desc))
  | .ambiguousOption input_opt matching_opts =>
    some ("parse error, ambiguous option '" ++ String.mk input_opt ++
      "', possible options are " ++
      String.intercalate ", " (matching_opts.map String.mk))
  | .unrecognizedOption opt =>
    some ("parse error, unrecognized option '" ++ String.mk opt ++ "'")
  | .undefinedDefaultOption option _ =>
    some ("parse error, undefined default option '" ++ String.mk option ++ "'")

/-- Recognizer for Rust's `f64::from_str` grammar (used only for its
success/failure bit by `is_negative_number`): an optional sign followed by a
case-insensitive `inf`/`infinity`/`nan` keyword or a decimal number
`Digits ['.' Digits?] [('e'|'E') Sign? Digits]` (also `'.' Digits ...`),
with at least one mantissa digit.  Overflow never fails, so recognition is
purely syntactic. -/
def float_exp_ok (r : Str) : Bool :=
  match r with
  | [] => true
  | c :: rest =>
    if c = 'e' ∨ c = 'E' then
      let digits := match rest with
        | '+' :: d => d
        | '-' :: d => d
        | d => d
      !digits.isEmpty && digits.all Char.isDigit
    else false

/-- The mantissa-and-exponent part of the `f64::from_str` grammar. -/
def float_body_ok (t : Str) : Bool :=
  let sp := t.span Char.isDigit
  match sp.2 with
  | '.' :: r2 =>
    let sp2 := r2.span Char.isDigit
    (!sp.1.isEmpty || !sp2.1.isEmpty) && float_exp_ok sp2.2
  | r1 => !sp.1.isEmpty && float_exp_ok r1

/-- `DefaultParser::is_negative_number`: `token.parse::<f64>().is_ok()`. -/
def is_negative_number (token : Str) : Bool :=
  let body := match token with
    | '+' :: r => r
    | '-' :: r => r
    | r => r
  to_lower body == str "inf" || to_lower body == str "infinity" ||
    to_lower body == str "nan" || float_body_ok body

/-- The per-parse environment: the registry snapshot (`self.options` — a
shallow `Options::clone`, so the template cells in `tstore` are the caller's
own cells) and the parser configuration flags.  None of these change during
one parse. -/
structure PEnv where
  tstore : List AnpOption
  opts : Options
  stop_at_non_option : Bool
  allow_partial_matching : Bool
  strip_leading_and_trailing_quotes : Option Bool
  deriving DecidableEq, Repr

/-- The mutable parser state: the shared group cells, the in-progress
`CommandLine` (`cmd_args`/`cmd_opts`), the "open" option (`current_option`
aliases the most recently pushed `cmd_opts` cell in Rust, modelled by its
index), the `skip_parsing` flag, the outstanding required obligations and
the token most recently seen. -/
structure PState where
  gstore : List OptionGroup
  cmd_args : List Str
  cmd_opts : List AnpOption
  current_option : Option Nat
  skip_parsing : Bool
  expected_opts : List Required
  current_token : Option Str
  deriving DecidableEq, Repr

/-- Outcome of one parser step: `Ok(())` with the new state, `Err(ParseErr)`
with the state at the moment of the error (in Rust the error is returned and
`self` keeps that state), or `abort` for a panic (RefCell double borrow or a
byte slice off a character boundary). -/
inductive PR where
  | ok (s : PState)
  | err (e : ParseErr) (s : PState)
  | abort
  deriving DecidableEq, Repr

/-- `DefaultParser::strip_leading_and_trailing_quotes_default_off`. -/
def strip_quotes_off (env : PEnv) (token : Str) : Str :=
  if env.strip_leading_and_trailing_quotes.getD false then
    strip_leading_and_trailing_quotes token
  else token

/-- `DefaultParser::strip_leading_and_trailing_quotes_default_on`. -/
def strip_quotes_on (env : PEnv) (token : Str) : Str :=
  if env.strip_leading_and_trailing_quotes.getD true then
    strip_leading_and_trailing_quotes token
  else token

/-- `DefaultParser::check_required_args`: the still-open option must not
require a further argument.  The `MissingArgument` payload is
`opt.borrow().clone()` — the custom `Clone`, so its `values` are reset. -/
def check_required_args (s : PState) : PR :=
  match s.current_option with
  | none => .ok s
  | some i =>
    match s.cmd_opts.get? i with
    | none => .abort
    | some o => if o.requires_arg then .err (.missingArgument o.clone) s
                else .ok s

/-- `DefaultParser::check_required_options`: when obligations remain, the
error carries ALL of them (the rendered message later shows only the
first). -/
def check_required_options (s : PState) : PR :=
  if s.expected_opts.isEmpty then .ok s
  else .err (.missingOption s.expected_opts) s

/-- `DefaultParser::get_matching_long_options`.  `none` models the panic of
the non-partial-matching branch's `.get_long_opt().unwrap()` (reachable when
the same text is a short key of an option without a long name while also
being some other option's long key). -/
def get_matching_long_options (env : PEnv) (token : Str) :
    Option (List Str) :=
  if env.allow_partial_matching then
    some (env.opts.get_matching_options token)
  else if env.opts.has_long_option token then
    match env.opts.get_option token with
    | none => none
    | some id =>
      match env.tstore.get? id with
      | none => none
      | some o =>
        match o.get_long_opt with
        | some l => some [l]
        | none => none
  else some []

/-- `DefaultParser::handle_unknown_token`. -/
def handle_unknown_token (env : PEnv) (s : PState) (token : Str) : PR :=
  if (str "-").isPrefixOf token ∧ utf8_len token > 1 ∧
      ¬env.stop_at_non_option then
    .err (.unrecognizedOption token) s
  else
    let s1 := { s with cmd_args := s.cmd_args ++ [token] }
    .ok (if env.stop_at_non_option then { s1 with skip_parsing := true }
         else s1)

/-- `DefaultParser::is_long_option` (`none` = panic propagated from
`get_matching_long_options`). -/
def is_long_option (env : PEnv) (token : Str) : Option Bool :=
  if ¬(str "-").isPrefixOf token ∨ utf8_len token = 1 then some false
  else
    let t := match split_first '=' token with
      | none => token
      | some p => p.1
    (get_matching_long_options env t).map (fun m => !m.isEmpty)

/-- `DefaultParser::is_short_option`.  `&opt_name[..1]` takes the first BYTE
of the name; when the first character is multi-byte that slice panics
(`none`). -/
def is_short_option (env : PEnv) (token : Str) : Option Bool :=
  if ¬(str "-").isPrefixOf token ∨ utf8_len token = 1 then some false
  else
    let t := match split_first '=' token with
      | none => token
      | some p => p.1
    let opt_name := t.drop 1
    if env.opts.has_short_option opt_name then some true
    else
      match opt_name with
      | [] => some false
      | c :: _ =>
        if utf8_size c = 1 then some (env.opts.has_short_option [c])
        else none

/-- `DefaultParser::is_option`. -/
def is_option (env : PEnv) (token : Str) : Option Bool :=
  match is_long_option env token with
  | none => none
  | some true => some true
  | some false => is_short_option env token

/-- `DefaultParser::is_argument`:
`!is_option(token) || is_negative_number(token)`. -/
def is_argument (env : PEnv) (token : Str) : Option Bool :=
  (is_option env token).map (fun b => !b || is_negative_number token)

/-- Append a raw value to the open option
(`current_option.as_ref().unwrap().borrow_mut().add_value_for_processing`),
wrapping an option-level failure into `ProcessingErr` with the call site's
description.  The open option aliases the last pushed `cmd_opts` cell, so
the mutation lands there. -/
def add_to_current (s : PState) (raw : Str) (desc : String) : PR :=
  match s.current_option with
  | none => .abort
  | some i =>
    match s.cmd_opts.get? i with
    | none => .abort
    | some o =>
      match o.add_value_for_processing raw with
      | .ok o' => .ok { s with cmd_opts := s.cmd_opts.set i o' }
      | .err e => .err (.processingErr desc (some e)) s
      | .abort => .abort

/-- `DefaultParser::update_required_options`: drop the option's own
obligation when it is required, then—when it belongs to a group—drop the
group obligation when the group is required and record the option as the
group's selection (a conflicting earlier selection is a `ProcessingErr`). -/
def update_required_options (env : PEnv) (s : PState) (o : AnpOption) : PR :=
  let s1 :=
    if o.is_required then
      { s with expected_opts :=
          (remove_first (fun r => required_eqb s.gstore r (.optKey o.get_key))
            s.expected_opts) }
    else s
  match env.opts.get_option_group o with
  | none => .ok s1
  | some gid =>
    match s1.gstore.get? gid with
    | none => .abort
    | some g =>
      let s2 :=
        if g.is_required then
          { s1 with expected_opts :=
              (remove_first
                (fun r => required_eqb s1.gstore r (.optGroup gid))
                s1.expected_opts) }
        else s1
      match g.set_selected (some o) with
      | .error e =>
        .err (.processingErr "error occurred when updating required options"
          (some e)) s2
      | .ok g' => .ok { s2 with gstore := s2.gstore.set gid g' }

/-- `DefaultParser::handle_option`: check the previously open option, clone
the template into a fresh instance (values reset), update the obligations
and group selection, append the instance to the command line, and open it
when it takes an argument. -/
def handle_option (env : PEnv) (s : PState) (o : AnpOption) : PR :=
  match check_required_args s with
  | .ok s0 =>
    let c := o.clone
    match update_required_options env s0 c with
    | .ok s1 =>
      let s2 := { s1 with cmd_opts := s1.cmd_opts ++ [c] }
      .ok { s2 with current_option :=
        if c.has_arg then some (s2.cmd_opts.length - 1) else none }
    | r => r
  | r => r

/-- `DefaultParser::handle_long_option_without_equal`. -/
def handle_long_option_without_equal (env : PEnv) (s : PState) (token : Str) :
    PR :=
  match get_matching_long_options env token with
  | none => .abort
  | some matching =>
    if matching.isEmpty then
      match s.current_token with
      | none => .abort
      | some ct => handle_unknown_token env s ct
    else if matching.length > 1 ∧ ¬env.opts.has_long_option token then
      .err (.ambiguousOption token matching) s
    else
      let key := if env.opts.has_long_option token then token
                 else matching.headD []
      match env.opts.get_option key with
      | none => .abort
      | some id =>
        match env.tstore.get? id with
        | none => .abort
        | some o => handle_option env s o

/-- `DefaultParser::handle_long_option_with_equal`. -/
def handle_long_option_with_equal (env : PEnv) (s : PState) (token : Str) :
    PR :=
  match split_first '=' token with
  | none => .abort
  | some (opt, value) =>
    match get_matching_long_options env opt with
    | none => .abort
    | some matching =>
      if matching.isEmpty then
        match s.current_token with
        | none => .abort
        | some ct => handle_unknown_token env s ct
      else if matching.length > 1 ∧ ¬env.opts.has_long_option opt then
        .err (.ambiguousOption opt matching) s
      else
        let key := if env.opts.has_long_option opt then opt
                   else matching.headD []
        match env.opts.get_option key with
        | none => .abort
        | some id =>
          match env.tstore.get? id with
          | none => .abort
          | some o =>
            if o.accepts_arg then
              match handle_option env s o with
              | .ok s1 =>
                match add_to_current s1 (strip_quotes_off env value)
                    ("Error occurred when processing long option with equal: "
                      ++ String.mk token) with
                | .ok s2 => .ok { s2 with current_option := none }
                | r => r
              | r => r
            else
              match s.current_token with
              | none => .abort
              | some ct => handle_unknown_token env s ct

/-- `DefaultParser::handle_long_option`. -/
def handle_long_option (env : PEnv) (s : PState) (token : Str) : PR :=
  match split_first '=' token with
  | none => handle_long_option_without_equal env s token
  | some _ => handle_long_option_with_equal env s token

/-- The character walk of `DefaultParser::handle_concatenated_options`,
starting at character index `i` of `token` (index 0, the hyphen, was skipped
by `continue`).  `&token[i..]` and `&token[i + 1..]` slice at BYTE positions
equal to the character index, which panics (`abort`) when that byte is not a
character boundary — possible as soon as a matched short key is a multi-byte
character. -/
def concat_loop (env : PEnv) (token : Str) :
    PState → Nat → Str → PR
  | s, _, [] => .ok s
  | s, i, ch :: rest =>
    match env.opts.get_option [ch] with
    | some id =>
      match env.tstore.get? id with
      | none => .abort
      | some o =>
        match handle_option env s o with
        | .ok s1 =>
          match s1.current_option with
          | some _ =>
            if token.length ≠ i + 1 then
              match slice_from_byte token (i + 1) with
              | none => .abort
              | some v =>
                match add_to_current s1 (strip_quotes_off env v)
                    ("error occurred when handling concatenated options: " ++
                      String.mk token) with
                | .ok s2 => .ok s2
                | r => r
            else concat_loop env token s1 (i + 1) rest
          | none => concat_loop env token s1 (i + 1) rest
        | r => r
    | none =>
      let arg := if env.stop_at_non_option ∧ i > 1 then
          slice_from_byte token i
        else some token
      match arg with
      | none => .abort
      | some a => handle_unknown_token env s a

/-- `DefaultParser::handle_concatenated_options`. -/
def handle_concatenated_options (env : PEnv) (s : PState) (token : Str) :
    PR :=
  concat_loop env token s 1 (token.drop 1)

/-- `DefaultParser::handle_short_and_long_option`. -/
def handle_short_and_long_option (env : PEnv) (s : PState) (token : Str) :
    PR :=
  let t := strip_leading_hyphens token
  if utf8_len t = 1 then
    if env.opts.has_short_option t then
      match env.opts.get_option t with
      | none => .abort
      | some id =>
        match env.tstore.get? id with
        | none => .abort
        | some o => handle_option env s o
    else handle_unknown_token env s token
  else
    match split_first '=' t with
    | none =>
      if env.opts.has_short_option t then
        match env.opts.get_option t with
        | none => .abort
        | some id =>
          match env.tstore.get? id with
          | none => .abort
          | some o => handle_option env s o
      else
        match get_matching_long_options env t with
        | none => .abort
        | some m =>
          if !m.isEmpty then handle_long_option_without_equal env s token
          else handle_concatenated_options env s token
    | some (opt, value) =>
      if utf8_len opt = 1 then
        match env.opts.get_option opt with
        | some id =>
          match env.tstore.get? id with
          | none => .abort
          | some o =>
            if o.accepts_arg then
              match handle_option env s o with
              | .ok s1 =>
                match add_to_current s1 value
                    ("Error occurred when parsing token: " ++
                      String.mk token) with
                | .ok s2 => .ok { s2 with current_option := none }
                | r => r
              | r => r
            else handle_unknown_token env s token
        | none => handle_unknown_token env s token
      else handle_long_option_with_equal env s token

/-- The `current_option.as_ref().is_some_and(|o| o.borrow().accepts_arg()
&& self.is_argument(&token))` test of `handle_token` (short-circuiting, so
`is_argument` — which can panic — only runs when an open option accepts an
argument). -/
def current_accepts (env : PEnv) (s : PState) (token : Str) : Option Bool :=
  match s.current_option with
  | none => some false
  | some i =>
    match s.cmd_opts.get? i with
    | none => none
    | some o => if o.accepts_arg then is_argument env token else some false

/-- `DefaultParser::handle_token`: the per-token classification. -/
def handle_token (env : PEnv) (s : PState) (token : Str) : PR :=
  let s := { s with current_token := some token }
  if s.skip_parsing then .ok { s with cmd_args := s.cmd_args ++ [token] }
  else if token = str "--" then .ok { s with skip_parsing := true }
  else
    match current_accepts env s token with
    | none => .abort
    | some true =>
      add_to_current s (strip_quotes_on env token)
        ("Error occurred when handling token: " ++ String.mk token)
    | some false =>
      if (str "--").isPrefixOf token then handle_long_option env s token
      else if (str "-").isPrefixOf token ∧ token ≠ str "-" then
        handle_short_and_long_option env s token
      else handle_unknown_token env s token

/-- One step of `DefaultParser::handle_defaults` for a single `(key, value)`
default entry.  When an injection actually proceeds, the source calls
`self.handle_option(&opt)` while the `RefMut` obtained by
`let mut opt_mut = opt.borrow_mut();` is still alive (a `RefMut` is dropped
only at the end of its enclosing block); `handle_option` immediately calls
`option.borrow()` on the same cell, which panics with a `BorrowError`.
Every path that would mutate the shared template cell therefore ends in
`abort` before the mutation becomes observable, which is why the template
store can be threaded read-only. -/
def defaults_step (env : PEnv) (s : PState) (key value : Str) : PR :=
  match env.opts.get_option key with
  | none => .err (.undefinedDefaultOption key value) s
  | some id =>
    match env.tstore.get? id with
    | none => .abort
    | some tmpl =>
      let selected :=
        match env.opts.get_option_group tmpl with
        | some gid =>
          match s.gstore.get? gid with
          | some g => g.get_selected.isSome
          | none => false
        | none => false
      if !cmd_has_option s.cmd_opts key && !selected then
        if tmpl.has_arg then
          if tmpl.values.isEmpty then
            match tmpl.add_value_for_processing value with
            | .err e =>
              .err (.processingErr
                ("Error occurred when handling default value: " ++
                  String.mk key) (some e)) s
            | .abort => .abort
            | .ok _ => .abort
          else .abort
        else if to_lower value ≠ str "yes" ∧ to_lower value ≠ str "true" ∧
            value ≠ str "1" then
          .ok s
        else .abort
      else .ok s

/-- The iteration of `handle_defaults` over the (cloned) defaults map. -/
def defaults_loop (env : PEnv) : PState → List (Str × Str) → PR
  | s, [] => .ok s
  | s, (k, v) :: rest =>
    match defaults_step env s k v with
    | .ok s' => defaults_loop env s' rest
    | r => r

/-- `DefaultParser::handle_defaults`. -/
def handle_defaults (env : PEnv) (s : PState) : PR :=
  match env.opts.defaults with
  | none => .ok s
  | some ds => defaults_loop env s ds

/-- Reset one group cell's selection (`set_selected(None)`). -/
def reset_at (g : List OptionGroup) (i : Nat) : List OptionGroup :=
  match g.get? i with
  | some grp => g.set i { grp with selected := none }
  | none => g

/-- The group reset at the start of `parse_args`: every group reachable from
the membership map gets `set_selected(None)`. -/
def reset_groups (opts : Options) (g : List OptionGroup) :
    List OptionGroup :=
  (opts.option_groups.map (·.2)).foldl reset_at g

/-- Result of a whole parse: the produced `CommandLine` or the first error,
together with the final contents of the shared group cells (which persist
into a later parse against the same registry), or `abort` when the process
panicked. -/
inductive POut where
  | ok (cmd : CommandLine) (gstore : List OptionGroup)
  | err (e : ParseErr) (gstore : List OptionGroup)
  | abort
  deriving DecidableEq, Repr

/-- The token loop of `parse_args`. -/
def run_tokens (env : PEnv) : PState → List Str → PR
  | s, [] => .ok s
  | s, t :: ts =>
    match handle_token env s t with
    | .ok s' => run_tokens env s' ts
    | r => r

/-- The strictly ordered end-of-parse phase of `parse_args`:
`check_required_args`, then `handle_defaults`, then
`check_required_options`. -/
def parse_finish (env : PEnv) (s : PState) : POut :=
  match check_required_args s with
  | .ok s1 =>
    match handle_defaults env s1 with
    | .ok s2 =>
      match check_required_options s2 with
      | .ok s3 => .ok ⟨s3.cmd_args, s3.cmd_opts⟩ s3.gstore
      | .err e s' => .err e s'.gstore
      | .abort => .abort
    | .err e s' => .err e s'.gstore
    | .abort => .abort
  | .err e s' => .err e s'.gstore
  | .abort => .abort

/-- The fresh parser state built at the top of `parse_args`: reachable group
selections reset, fresh `CommandLine`, required obligations copied from the
registry. -/
def init_state (env : PEnv) (g : List OptionGroup) : PState :=
  { gstore := reset_groups env.opts g
    cmd_args := []
    cmd_opts := []
    current_option := none
    skip_parsing := false
    expected_opts := env.opts.get_required_options
    current_token := none }

/-- Package a token-loop outcome into the parse result: a surviving state
goes through the finalization phase, an error is returned with the group
cells as the parser left them. -/
def pout_step (env : PEnv) : PR → POut
  | .ok s => parse_finish env s
  | .err e s => .err e s.gstore
  | .abort => .abort

/-- `DefaultParser::parse_args`: reset all reachable group selections, start
from a fresh state, run the token loop, then finalize. -/
def parse_args (env : PEnv) (g : List OptionGroup) (arguments : List Str) :
    POut :=
  pout_step env (run_tokens env (init_state env g) arguments)

/-- The surviving group-cell contents after a parse that returned (did not
panic). -/
def final_gstore : POut → Option (List OptionGroup)
  | .ok _ g => some g
  | .err _ g => some g
  | .abort => none

/-- The surviving group-cell contents of an intermediate parser step (the
state carried by a non-panicking token-loop outcome). -/
def gs_of : PR → Option (List OptionGroup)
  | .ok s => some s.gstore
  | .err _ s => some s.gstore
  | .abort => none

/-! ## Concrete registries used by the claim theorems -/

/-- A no-argument short option `a`. -/
def opt_a : AnpOption :=
  ⟨some (str "a"), none, none, none, false, false, .fixed 0, none, []⟩

/-- A no-argument short option `b`. -/
def opt_b : AnpOption :=
  ⟨some (str "b"), none, none, none, false, false, .fixed 0, none, []⟩

/-- A no-argument short option `c`. -/
def opt_c : AnpOption :=
  ⟨some (str "c"), none, none, none, false, false, .fixed 0, none, []⟩

/-- A no-argument short option whose (multi-character) short name is `abc`. -/
def opt_abc : AnpOption :=
  ⟨some (str "abc"), none, none, none, false, false, .fixed 0, none, []⟩

/-- A required short option `f` taking exactly one argument. -/
def opt_f_req : AnpOption :=
  ⟨some (str "f"), none, none, none, true, false, .fixed 1, none, []⟩

/-- A required no-argument short option `g`. -/
def opt_g_req : AnpOption :=
  ⟨some (str "g"), none, none, none, true, false, .fixed 0, none, []⟩

/-- A required no-argument short option `f`. -/
def opt_f_req0 : AnpOption :=
  ⟨some (str "f"), none, none, none, true, false, .fixed 0, none, []⟩

/-- The default parser configuration of `DefaultParser::builder()`:
`stop_at_non_option = false`, `allow_partial_matching = true`, quote
stripping unset. -/
def default_env (tstore : List AnpOption) (opts : Options) : PEnv :=
  ⟨tstore, opts, false, true, none⟩

/-- Registry with the single required one-argument option `f` and a default
value `f = "x"` registered. -/
def env_f_default : PEnv :=
  default_env [opt_f_req]
    ⟨[(str "f", 0)], [], [.optKey (str "f")], [],
      some [(str "f", str "x")]⟩

/-- The same registry without any default registered. -/
def env_f_nodefault : PEnv :=
  default_env [opt_f_req]
    ⟨[(str "f", 0)], [], [.optKey (str "f")], [], none⟩

/-- Registry with one no-argument option `a` and the default `a = "yes"`. -/
def env_a_default_yes : PEnv :=
  default_env [⟨some (str "a"), none, none, none, false, false, .fixed 0,
      none, []⟩]
    ⟨[(str "a", 0)], [], [], [], some [(str "a", str "yes")]⟩

/-- The empty registry. -/
def env_empty : PEnv := default_env [] Options.new

/-- Registry with the two required options `f` and `g`. -/
def env_fg_required : PEnv :=
  default_env [opt_f_req0, opt_g_req]
    ⟨[(str "f", 0), (str "g", 1)], [],
      [.optKey (str "f"), .optKey (str "g")], [], none⟩

/-- Registry with the independent no-argument short options `a`, `b`, `c`
and additionally a short option whose key is the whole string `abc`. -/
def env_abc_clash : PEnv :=
  default_env [opt_a, opt_b, opt_c, opt_abc]
    ⟨[(str "a", 0), (str "b", 1), (str "c", 2), (str "abc", 3)], [], [], [],
      none⟩

/-- The same registry with only `a`, `b`, `c` registered (no `abc` key). -/
def env_abc_free : PEnv :=
  default_env [opt_a, opt_b, opt_c]
    ⟨[(str "a", 0), (str "b", 1), (str "c", 2)], [], [], [], none⟩

/-- Registry with the no-argument short options `a` and `b` forming one
(non-required) option group. -/
def env_group : PEnv :=
  default_env [opt_a, opt_b]
    ⟨[(str "a", 0), (str "b", 1)], [], [],
      [(str "a", 0), (str "b", 0)], none⟩

/-- The group cell of `env_group` with no selection. -/
def grp_ab : OptionGroup := ⟨[(str "a", 0), (str "b", 1)], none, false⟩

/-- The group cell of `env_group` after `a` was selected. -/
def grp_ab_sel : OptionGroup :=
  ⟨[(str "a", 0), (str "b", 1)], some (str "a"), false⟩

/-- The matched-option key list of a successful parse. -/
def matched_keys : POut → Option (List Str)
  | .ok cmd _ => some (cmd.options.map AnpOption.get_key)
  | _ => none

/-! ## C1 -/

/-- C1: a required option `f` taking one argument, with a registered default
`f = "x"`, parsed against the empty token list.  The spec (and the claim)
require the parse to succeed with `f` present and `"x"` as its sole value.
The code instead panics: `handle_defaults` pushes the default into the
template cell and then calls `handle_option` on that same cell while the
`RefMut` from `opt.borrow_mut()` is still alive, so `option.borrow()` raises
a `BorrowError` (and even absent the panic, the pushed value would be lost
because `Clone for AnpOption` resets `values`).  With no default registered
the same parse correctly reports `MissingOption`, so only the first half of
the claim fails. -/
theorem default_injection_aborts_instead_of_succeeding :
    parse_args env_f_default [] [] = .abort ∧
    parse_args env_f_nodefault [] [] =
      .err (.missingOption [.optKey (str "f")]) [] := by
  constructor <;> rfl

/-! ## C9 -/

/-- C9: the claim states `parse_args` is total and never panics, naming the
default-injection path in particular.  Injecting the truthy default
`a = "yes"` for the registered no-argument option `a` makes the parse abort:
`handle_defaults` reaches `handle_option(&opt)` while holding a `RefMut` on
the same cell, a RefCell double borrow. -/
theorem parse_args_aborts_on_truthy_default :
    parse_args env_a_default_yes [] [] = .abort := by rfl

/-! ## C3 -/

/-- C3 counterexample: with the two required options `f` and `g` both unmet,
the returned `MissingOption` error carries BOTH obligations — a two-element
list, not just the first unmet obligation as the claim states. -/
theorem missing_option_carries_two_obligations :
    parse_args env_fg_required [] [] =
      .err (.missingOption [.optKey (str "f"), .optKey (str "g")]) [] ∧
    [Required.optKey (str "f"), Required.optKey (str "g")].length ≠ 1 := by
  constructor
  · rfl
  · decide

/-! ## C4 -/

/-- C4 counterexample: against the empty registry the token `-x` passes
neither the is-long-option nor the is-short-option test (it is not
option-shaped), yet `parse_args` does not succeed with `["-x"]` as the
positional list — it fails with `UnrecognizedOption`, because
`handle_unknown_token` rejects any hyphen-led token of byte length > 1 when
`stop_at_non_option` is unset. -/
theorem non_option_shaped_hyphen_token_is_rejected :
    is_option env_empty (str "-x") = some false ∧
    parse_args env_empty [] [str "-x"] =
      .err (.unrecognizedOption (str "-x")) [] := by
  constructor <;> rfl

/-! ## C5 -/

/-- C5 counterexample: a registry in which `a`, `b`, `c` are independently
registered no-argument short options but which also registers the short
option `abc`.  `-abc` resolves to the whole-key option `abc` while
`-a -b -c` matches `a`, `b`, `c`; the matched-option sets differ, refuting
the claim's universal quantification over all registries containing `a`,
`b`, `c`. -/
theorem concatenated_flags_differ_when_whole_key_registered :
    matched_keys (parse_args env_abc_clash [] [str "-abc"]) =
      some [str "abc"] ∧
    matched_keys (parse_args env_abc_clash []
        [str "-a", str "-b", str "-c"]) =
      some [str "a", str "b", str "c"] := by
  constructor <;> rfl

/-! ## C10 -/

/-- C10 counterexample: an option declared with only the long name `-x`
(the builder validates short names but only requires long names to be
non-empty).  After registration the claim asserts `has_short_option("-x")`
is true; it is false, because `has_short_option` strips leading hyphens from
its argument and then looks up `x`, while the table key is the raw string
`-x`. -/
theorem long_only_hyphen_name_not_found_as_short :
    (Options.new.add_option []
        ⟨none, none, some (str "-x"), none, false, false, .fixed 0, none,
          []⟩).1.has_short_option (str "-x") = false := by rfl

/-! ## Helper lemmas -/

theorem isPrefixOf_hyphen_of_double {s : Str}
    (h : (str "--").isPrefixOf s = true) : (str "-").isPrefixOf s = true := by
  cases s with
  | nil => simp [str, List.isPrefixOf] at h
  | cons c cs =>
    simp [str, List.isPrefixOf] at h ⊢
    exact h.1

theorem strip_leading_hyphens_eq_self {s : Str}
    (h : (str "-").isPrefixOf s = false) : strip_leading_hyphens s = s := by
  unfold strip_leading_hyphens
  rw [if_neg, if_neg]
  · simp [h]
  · intro hd
    rw [isPrefixOf_hyphen_of_double hd] at h
    exact Bool.noConfusion h

theorem alist_get_insert_self {α : Type} (m : List (Str × α)) (k : Str)
    (v : α) : alist_get (alist_insert m k v) k = some v := by
  induction m with
  | nil => simp [alist_insert, alist_get, List.find?]
  | cons p rest ih =>
    by_cases hp : p.1 == k
    · simp [alist_insert, hp, alist_get, List.find?]
    · simp only [alist_insert, hp, Bool.false_eq_true, if_false]
      simp only [alist_get, List.find?, hp]
      exact ih

/-! ## C3 (amended) -/

/-- C3 (amended): when required obligations remain at end of parse, the
`MissingOption` error carries the FULL ordered list of all of them
(`check_required_options` clones the whole `expected_opts` vector into the
error), while the rendered message (`Display`) depends only on the first
obligation of that list. -/
theorem missing_option_full_list_rendered_first :
    (∀ s : PState, s.expected_opts ≠ [] →
      check_required_options s = .err (.missingOption s.expected_opts) s) ∧
    (∀ (ts : List AnpOption) (gs : List OptionGroup) (r : Required)
        (rs : List Required),
      parse_err_render ts gs (.missingOption (r :: rs)) =
        parse_err_render ts gs (.missingOption [r])) := by
  constructor
  · intro s h
    unfold check_required_options
    rw [if_neg]
    simp [List.isEmpty_iff, h]
  · intro ts gs r rs
    rfl

/-- Witness for C3's amended theorem: the state with obligations `f` then
`g` errs with both carried, and the rendering of a two-element
`MissingOption` equals the rendering of just its head. -/
theorem missing_option_full_list_rendered_first_witness :
    (PState.mk [] [] [] none false
        [Required.optKey (str "f"), Required.optKey (str "g")]
        none).expected_opts ≠ [] ∧
    check_required_options
        ⟨[], [], [], none, false,
          [.optKey (str "f"), .optKey (str "g")], none⟩ =
      .err (.missingOption [.optKey (str "f"), .optKey (str "g")])
        ⟨[], [], [], none, false,
          [.optKey (str "f"), .optKey (str "g")], none⟩ ∧
    parse_err_render [] []
        (.missingOption [.optKey (str "f"), .optKey (str "g")]) =
      parse_err_render [] [] (.missingOption [.optKey (str "f")]) :=
  ⟨by decide,
   missing_option_full_list_rendered_first.1 _ (by decide),
   missing_option_full_list_rendered_first.2 [] [] _ _⟩

/-! ## C6 -/

theorem add_fixed_ok {o : AnpOption} {n : Nat} (hc : o.arg_count = .fixed n)
    (hlt : o.values.length < n) (x : Str) :
    o.add x = .ok { o with values := o.values ++ [x] } := by
  have hn : 0 < n := Nat.lt_of_le_of_lt (Nat.zero_le _) hlt
  have hacc : o.accepts_arg = true := by
    simp [AnpOption.accepts_arg, AnpOption.has_arg, AnpOption.has_args,
      AnpOption.has_optional_arg, hc, ArgCount.is_fix, ArgCount.is_unlimited,
      ArgCount.is_uninitialized, ArgCount.get_fix_unchecked, hn,
      Nat.not_le.mpr hlt]
  simp [AnpOption.add, hacc]

theorem add_fixed_full {o : AnpOption} {n : Nat} (hc : o.arg_count = .fixed n)
    (hge : o.values.length ≥ n) (x : Str) :
    o.add x = .err ⟨some o.clone, "cannot add value, list full"⟩ := by
  have hacc : o.accepts_arg = false := by
    simp [AnpOption.accepts_arg, AnpOption.has_arg, AnpOption.has_args,
      AnpOption.has_optional_arg, hc, ArgCount.is_fix, ArgCount.is_unlimited,
      ArgCount.is_uninitialized, ArgCount.get_fix_unchecked, hge]
  simp [AnpOption.add, hacc]

theorem pv_loop_fuel_fixed {sep : Char} (hs : utf8_size sep = 1) :
    ∀ (fuel : Nat) (v : Str), v.length < fuel → ∀ (o : AnpOption) (n : Nat),
      o.arg_count = .fixed n → o.values.length < n →
      ∃ vs, AnpOption.pv_loop_fuel fuel o sep v =
          .ok { o with values := o.values ++ vs } ∧
        o.values.length + vs.length ≤ n := by
  intro fuel
  induction fuel with
  | zero =>
    intro v hv
    exact absurd hv (Nat.not_lt_zero _)
  | succ k ih =>
    intro v hv o n hc hlt
    cases hsp : split_first sep v with
    | none =>
      refine ⟨[v], ?_, ?_⟩
      · rw [AnpOption.pv_loop_fuel]
        simp only [hsp]
        exact add_fixed_ok hc hlt v
      · simp only [List.length_cons, List.length_nil]
        omega
    | some p =>
      obtain ⟨a, b⟩ := p
      by_cases hbr : o.values.length = n - 1
      · have hcond : (o.arg_count.is_fix &&
            decide (o.values.length = o.arg_count.get_fix_unchecked - 1)) =
              true := by
          rw [hc]
          simp [ArgCount.is_fix, ArgCount.get_fix_unchecked, hbr]
        refine ⟨[v], ?_, ?_⟩
        · rw [AnpOption.pv_loop_fuel]
          simp only [hsp, hcond, if_true]
          exact add_fixed_ok hc hlt v
        · simp only [List.length_cons, List.length_nil]
          omega
      · have hcond : (o.arg_count.is_fix &&
            decide (o.values.length = o.arg_count.get_fix_unchecked - 1)) =
              false := by
          rw [hc]
          simp [ArgCount.is_fix, ArgCount.get_fix_unchecked, hbr]
        have hlen1 : (o.values ++ [a]).length < n := by
          simp only [List.length_append, List.length_cons, List.length_nil]
          omega
        have hblen : b.length < k := by
          have := split_first_snd_lt hsp
          omega
        obtain ⟨vs, hrun, hbound⟩ :=
          ih b hblen { o with values := o.values ++ [a] } n hc hlen1
        refine ⟨a :: vs, ?_, ?_⟩
        · rw [AnpOption.pv_loop_fuel]
          simp only [hsp, hcond, Bool.false_eq_true, if_false,
            add_fixed_ok hc hlt a, hs, if_pos]
          rw [hrun]
          simp [List.append_assoc]
        · simp only [List.length_append, List.length_cons,
            List.length_nil] at hbound ⊢
          omega

theorem pv_loop_fixed {sep : Char} (hs : utf8_size sep = 1) (v : Str)
    {o : AnpOption} {n : Nat} (hc : o.arg_count = .fixed n)
    (hlt : o.values.length < n) :
    ∃ vs, o.pv_loop sep v = .ok { o with values := o.values ++ vs } ∧
      o.values.length + vs.length ≤ n :=
  pv_loop_fuel_fixed hs (v.length + 1) v (Nat.lt_succ_self _) o n hc hlt

/-- The option of the spec's example: Fixed arity 2, value separator `,`. -/
def opt_two_sep : AnpOption :=
  ⟨some (str "f"), none, none, none, false, false, .fixed 2, some ',', []⟩

/-- C6: (1) the arity-2, `,`-separated option fed `"a,b,c"` gets exactly the
two values `"a"` and `"b,c"`; (2) in general, appending one raw value to a
Fixed-`n` option that still has room (with a single-byte separator — the
only kind whose `&value[i + 1..]` slice does not panic) succeeds and never
grows the value list past `n`, i.e. at most `n - 1` splits happen; (3)
appending once the arity ceiling is reached is the "list full" error. -/
theorem value_separator_split_behavior :
    (opt_two_sep.add_value_for_processing (str "a,b,c") =
      .ok { opt_two_sep with values := [str "a", str "b,c"] }) ∧
    (∀ (o : AnpOption) (n : Nat) (v : Str), o.arg_count = .fixed n →
      o.values.length < n →
      (∀ c, o.value_sep = some c → utf8_size c = 1) →
      ∃ vs, o.add_value_for_processing v =
          .ok { o with values := o.values ++ vs } ∧
        o.values.length + vs.length ≤ n) ∧
    (∀ (o : AnpOption) (n : Nat) (v : Str), o.arg_count = .fixed n →
      o.values.length ≥ n →
      o.add v = .err ⟨some o.clone, "cannot add value, list full"⟩) := by
  refine ⟨by decide, ?_, ?_⟩
  · intro o n v hc hlt hsep
    have hni : o.arg_count.is_uninitialized = false := by
      simp [hc, ArgCount.is_uninitialized]
    cases hvs : o.value_sep with
    | none =>
      have heq : o.add_value_for_processing v = o.add v := by
        simp only [AnpOption.add_value_for_processing, hni,
          Bool.false_eq_true, if_false, AnpOption.process_value, hvs]
      refine ⟨[v], ?_, ?_⟩
      · rw [heq]
        have h2 := add_fixed_ok hc hlt v
        rw [hvs] at h2
        exact h2
      · simp only [List.length_cons, List.length_nil]
        omega
    | some c =>
      have heq : o.add_value_for_processing v = o.pv_loop c v := by
        simp only [AnpOption.add_value_for_processing, hni,
          Bool.false_eq_true, if_false, AnpOption.process_value, hvs]
      obtain ⟨vs, hrun, hbound⟩ :=
        pv_loop_fixed (hsep c hvs) v hc hlt
      rw [hvs] at hrun
      refine ⟨vs, ?_, hbound⟩
      rw [heq]
      exact hrun
  · intro o n v hc hge
    exact add_fixed_full hc hge v

/-- Witness for C6: the general parts applied to the concrete arity-2 option
(with room, then full). -/
theorem value_separator_split_behavior_witness :
    (opt_two_sep.arg_count = .fixed 2 ∧ opt_two_sep.values.length < 2 ∧
      (∀ c, opt_two_sep.value_sep = some c → utf8_size c = 1) ∧
      ∃ vs, opt_two_sep.add_value_for_processing (str "a,b,c") =
          .ok { opt_two_sep with values := opt_two_sep.values ++ vs } ∧
        opt_two_sep.values.length + vs.length ≤ 2) ∧
    (({ opt_two_sep with values := [str "a", str "b,c"] } :
        AnpOption).values.length ≥ 2 ∧
      ({ opt_two_sep with values := [str "a", str "b,c"] } :
          AnpOption).add (str "d") =
        .err ⟨some ({ opt_two_sep with values := [str "a", str "b,c"] } :
          AnpOption).clone, "cannot add value, list full"⟩) :=
  ⟨⟨by decide, by decide, by decide,
    value_separator_split_behavior.2.1 opt_two_sep 2 (str "a,b,c") (by decide)
      (by decide) (by decide)⟩,
   ⟨by decide,
    value_separator_split_behavior.2.2 _ 2 (str "d") (by decide)
      (by decide)⟩⟩

/-! ## C8 -/

/-- C8: (1) processing the literal token `--` from a state that is not yet in
skip mode consumes it — it only flips `skip_parsing`, storing nothing and
matching nothing; (2) from any state with `skip_parsing` set, the rest of
the token loop succeeds, stores every subsequent token verbatim as a
positional argument (in order) and leaves the matched options — including
their accumulated values — completely untouched. -/
theorem double_hyphen_skips_rest :
    (∀ (env : PEnv) (s : PState), s.skip_parsing = false →
      handle_token env s (str "--") =
        .ok { s with current_token := some (str "--"),
                     skip_parsing := true }) ∧
    (∀ (env : PEnv) (s : PState) (ts : List Str), s.skip_parsing = true →
      ∃ s', run_tokens env s ts = .ok s' ∧
        s'.cmd_args = s.cmd_args ++ ts ∧ s'.cmd_opts = s.cmd_opts ∧
        s'.skip_parsing = true) := by
  constructor
  · intro env s h
    simp only [handle_token, h, Bool.false_eq_true, if_false, if_true]
  · intro env s ts
    induction ts generalizing s with
    | nil =>
      intro h
      exact ⟨s, rfl, by simp, rfl, h⟩
    | cons t rest ih =>
      intro h
      have hstep : handle_token env s t =
          .ok { s with current_token := some t,
                       cmd_args := s.cmd_args ++ [t] } := by
        simp only [handle_token, h, if_true]
      obtain ⟨s', hrun, hargs, hopts, hskip⟩ :=
        ih { s with current_token := some t,
                    cmd_args := s.cmd_args ++ [t] } h
      refine ⟨s', ?_, ?_, hopts, hskip⟩
      · rw [run_tokens, hstep]
        exact hrun
      · rw [hargs]
        simp

/-- Witness for C8: the fresh state consumes `--`, and from skip mode the
tokens `-x` and `pos` are stored verbatim with no option matched. -/
theorem double_hyphen_skips_rest_witness :
    ((PState.mk [] [] [] none false [] none).skip_parsing = false ∧
      handle_token env_empty ⟨[], [], [], none, false, [], none⟩ (str "--") =
        .ok { (⟨[], [], [], none, false, [], none⟩ : PState) with
                current_token := some (str "--"), skip_parsing := true }) ∧
    ((PState.mk [] [] [] none true [] none).skip_parsing = true ∧
      ∃ s', run_tokens env_empty ⟨[], [], [], none, true, [], none⟩
          [str "-x", str "pos"] = .ok s' ∧
        s'.cmd_args = ([] : List Str) ++ [str "-x", str "pos"] ∧
        s'.cmd_opts = ([] : List AnpOption) ∧ s'.skip_parsing = true) :=
  ⟨⟨rfl, double_hyphen_skips_rest.1 env_empty _ rfl⟩,
   ⟨rfl, double_hyphen_skips_rest.2 env_empty _ _ rfl⟩⟩

/-! ## C10 (amended) -/

/-- `handle_option` on a template while no option is open and the option
belongs to no group: the clone (values reset) is appended to the command
line, the option's own obligation is dropped when required, and the instance
becomes the open option exactly when it takes an argument. -/
theorem handle_option_no_group (env : PEnv) (s : PState) (o : AnpOption)
    (hcur : s.current_option = none)
    (hgrp : alist_get env.opts.option_groups o.clone.get_key = none) :
    handle_option env s o = .ok
      { s with
          expected_opts :=
            (if o.clone.is_required then
              (remove_first
                (fun r => required_eqb s.gstore r (.optKey o.clone.get_key))
                s.expected_opts)
             else s.expected_opts),
          cmd_opts := s.cmd_opts ++ [o.clone],
          current_option :=
            (if o.clone.has_arg then some ((s.cmd_opts ++ [o.clone]).length - 1)
             else none) } := by
  simp only [handle_option, check_required_args, hcur,
    update_required_options, Options.get_option_group, hgrp]
  by_cases hreq : o.clone.is_required = true
  · simp [hreq]
  · simp only [Bool.not_eq_true] at hreq
    simp [hreq]

/-- C10 (amended): (1) registering any option inserts it into the short-name
table under its key; (2) for an option with only a long name `L` that does
not start with `-`, `has_short_option L` holds after registration (the
original claim fails for `L` starting with `-`, which the lookup's
hyphen-stripping breaks); (3) a short-table entry `L` without `=` and
without a leading hyphen is resolved by the single-hyphen token `-L` through
the short-option lookup, matching that option. -/
theorem short_table_key_insertion_and_resolution :
    (∀ (opts : Options) (tstore : List AnpOption) (o : AnpOption),
      alist_get (opts.add_option tstore o).1.short_opts o.get_key =
        some tstore.length) ∧
    (∀ (opts : Options) (tstore : List AnpOption) (o : AnpOption) (L : Str),
      o.option = none → o.long_option = some L →
      (str "-").isPrefixOf L = false →
      (opts.add_option tstore o).1.has_short_option L = true) ∧
    (∀ (env : PEnv) (s : PState) (L : Str) (id : Nat) (o : AnpOption),
      (str "-").isPrefixOf L = false → split_first '=' L = none →
      alist_get env.opts.short_opts L = some id →
      env.tstore.get? id = some o →
      s.current_option = none →
      alist_get env.opts.option_groups o.clone.get_key = none →
      ∃ s', handle_short_and_long_option env s ('-' :: L) = .ok s' ∧
        s'.cmd_opts = s.cmd_opts ++ [o.clone]) := by
  refine ⟨?_, ?_, ?_⟩
  · intro opts tstore o
    simp only [Options.add_option, Options.add_option_inner_id]
    exact alist_get_insert_self _ _ _
  · intro opts tstore o L hshort hlong hpre
    have hkey : o.get_key = L := by
      simp [AnpOption.get_key, hshort, hlong]
    simp only [Options.has_short_option, Options.add_option,
      Options.add_option_inner_id, hkey, strip_leading_hyphens_eq_self hpre,
      alist_get_insert_self, Option.isSome]
  · intro env s L id o hpre hne halist htst hcur hgrp
    have h2 : (str "--").isPrefixOf ('-' :: L) = (str "-").isPrefixOf L :=
      rfl
    have h3 : (str "-").isPrefixOf ('-' :: L) = true := by
      simp [str, List.isPrefixOf]
    have hstrip : strip_leading_hyphens ('-' :: L) = L := by
      simp only [strip_leading_hyphens, h2, hpre, h3, Bool.false_eq_true,
        if_false, if_true, List.drop_succ_cons, List.drop_zero]
    have hgetopt : env.opts.get_option L = some id := by
      simp only [Options.get_option, strip_leading_hyphens_eq_self hpre,
        halist]
    have hhs : env.opts.has_short_option L = true := by
      simp only [Options.has_short_option, strip_leading_hyphens_eq_self hpre,
        halist, Option.isSome]
    have hho := handle_option_no_group env s o hcur hgrp
    by_cases hlen : utf8_len L = 1
    · have hred : handle_short_and_long_option env s ('-' :: L) =
          handle_option env s o := by
        simp only [handle_short_and_long_option, hstrip, hlen, if_true,
          hhs, hgetopt, htst]
      rw [hred, hho]
      exact ⟨_, rfl, rfl⟩
    · have hred : handle_short_and_long_option env s ('-' :: L) =
          handle_option env s o := by
        simp only [handle_short_and_long_option, hstrip, hlen,
          if_false, hne, hhs, hgetopt, htst, if_true]
      rw [hred, hho]
      exact ⟨_, rfl, rfl⟩

/-- An option declared with only the long name `out`. -/
def opt_long_out : AnpOption :=
  ⟨none, none, some (str "out"), none, false, false, .fixed 0, none, []⟩

/-- Registry holding only `opt_long_out` (as produced by registering it). -/
def env_out : PEnv :=
  default_env [opt_long_out] ⟨[(str "out", 0)], [(str "out", 0)], [], [],
    none⟩

/-- Witness for C10's amended theorem at the long-only option `out`. -/
theorem short_table_key_insertion_and_resolution_witness :
    (alist_get (Options.new.add_option [] opt_long_out).1.short_opts
        opt_long_out.get_key = some 0) ∧
    (opt_long_out.option = none ∧
      opt_long_out.long_option = some (str "out") ∧
      (str "-").isPrefixOf (str "out") = false ∧
      (Options.new.add_option [] opt_long_out).1.has_short_option
        (str "out") = true) ∧
    ((str "-").isPrefixOf (str "out") = false ∧
      split_first '=' (str "out") = none ∧
      alist_get env_out.opts.short_opts (str "out") = some 0 ∧
      env_out.tstore.get? 0 = some opt_long_out ∧
      (PState.mk [] [] [] none false [] none).current_option = none ∧
      alist_get env_out.opts.option_groups opt_long_out.clone.get_key =
        none ∧
      ∃ s', handle_short_and_long_option env_out
          ⟨[], [], [], none, false, [], none⟩ ('-' :: str "out") = .ok s' ∧
        s'.cmd_opts = ([] : List AnpOption) ++ [opt_long_out.clone]) :=
  ⟨short_table_key_insertion_and_resolution.1 Options.new [] opt_long_out,
   ⟨by decide, by decide, by decide,
    short_table_key_insertion_and_resolution.2.1 Options.new [] opt_long_out
      (str "out") (by decide) (by decide) (by decide)⟩,
   ⟨by decide, by decide, by decide, by decide, by decide, by decide,
    short_table_key_insertion_and_resolution.2.2 env_out
      ⟨[], [], [], none, false, [], none⟩ (str "out") 0 opt_long_out
      (by decide) (by decide) (by decide) (by decide) (by decide)
      (by decide)⟩⟩

/-! ## C7 -/

/-- C7: (1) an exact long-option key short-circuits abbreviation matching to
exactly itself, regardless of also being a prefix of other keys; (2) a text
that matches no long key exactly but is a prefix of exactly one long key
resolves to that key's option — `handle_long_option_without_equal` matches
it (one new instance appended); (3) a text that matches no long key exactly
but is a prefix of two or more long keys is an `AmbiguousOption` error
carrying the input text and the full candidate list. -/
theorem long_option_abbreviation_resolution :
    (∀ (opts : Options) (t : Str),
      (alist_get opts.long_opts (strip_leading_hyphens t)).isSome = true →
      opts.get_matching_options t = [strip_leading_hyphens t]) ∧
    (∀ (env : PEnv) (s : PState) (t k : Str) (id : Nat) (o : AnpOption),
      env.allow_partial_matching = true →
      alist_get env.opts.long_opts (strip_leading_hyphens t) = none →
      (env.opts.long_opts.filter
          (fun p => (strip_leading_hyphens t).isPrefixOf p.1)).map (·.1) =
        [k] →
      env.opts.get_option k = some id →
      env.tstore.get? id = some o →
      s.current_option = none →
      alist_get env.opts.option_groups o.clone.get_key = none →
      ∃ s', handle_long_option_without_equal env s t = .ok s' ∧
        s'.cmd_opts = s.cmd_opts ++ [o.clone]) ∧
    (∀ (env : PEnv) (s : PState) (t : Str),
      env.allow_partial_matching = true →
      alist_get env.opts.long_opts (strip_leading_hyphens t) = none →
      2 ≤ ((env.opts.long_opts.filter
          (fun p => (strip_leading_hyphens t).isPrefixOf p.1)).map
            (·.1)).length →
      handle_long_option_without_equal env s t =
        .err (.ambiguousOption t
          ((env.opts.long_opts.filter
            (fun p => (strip_leading_hyphens t).isPrefixOf p.1)).map (·.1)))
          s) := by
  refine ⟨?_, ?_, ?_⟩
  · intro opts t h
    simp only [Options.get_matching_options, h, if_true]
  · intro env s t k id o hp hex hm hg ht hcur hgrp
    have hmm : get_matching_long_options env t = some [k] := by
      simp only [get_matching_long_options, hp, if_true,
        Options.get_matching_options, hex, Option.isSome_none,
        Bool.false_eq_true, if_false, hm]
    have hhl : env.opts.has_long_option t = false := by
      simp only [Options.has_long_option, hex, Option.isSome_none]
    have hred : handle_long_option_without_equal env s t =
        handle_option env s o := by
      simp only [handle_long_option_without_equal, hmm, List.isEmpty_cons,
        Bool.false_eq_true, if_false, List.length_cons, List.length_nil,
        hhl, List.headD, hg, ht]
      simp
    rw [hred, handle_option_no_group env s o hcur hgrp]
    exact ⟨_, rfl, rfl⟩
  · intro env s t hp hex hlen
    have hhl : env.opts.has_long_option t = false := by
      simp only [Options.has_long_option, hex, Option.isSome_none]
    have hmm : get_matching_long_options env t =
        some ((env.opts.long_opts.filter
          (fun p => (strip_leading_hyphens t).isPrefixOf p.1)).map (·.1)) :=
      by
      simp only [get_matching_long_options, hp, if_true,
        Options.get_matching_options, hex, Option.isSome_none,
        Bool.false_eq_true, if_false]
    have hne : ((env.opts.long_opts.filter
        (fun p => (strip_leading_hyphens t).isPrefixOf p.1)).map
          (·.1)).isEmpty = false := by
      cases hmatch : (env.opts.long_opts.filter
          (fun p => (strip_leading_hyphens t).isPrefixOf p.1)).map (·.1) with
      | nil => rw [hmatch] at hlen; simp at hlen
      | cons x xs => simp
    simp only [handle_long_option_without_equal, hmm, hne,
      Bool.false_eq_true, if_false, hhl]
    rw [if_pos]
    constructor
    · omega
    · simp

/-- Long-only option `almost-all`. -/
def opt_almost_all : AnpOption :=
  ⟨none, none, some (str "almost-all"), none, false, false, .fixed 0, none,
    []⟩

/-- Long-only option `all`. -/
def opt_all : AnpOption :=
  ⟨none, none, some (str "all"), none, false, false, .fixed 0, none, []⟩

/-- Registry with exactly the long options `almost-all` and `all`. -/
def env_almost : PEnv :=
  default_env [opt_almost_all, opt_all]
    ⟨[(str "almost-all", 0), (str "all", 1)],
      [(str "almost-all", 0), (str "all", 1)], [], [], none⟩

/-- Witness for C7 on the `almost-all`/`all` registry: `--all` matches
exactly `all` although it is a prefix of both; `--almost` uniquely resolves
to `almost-all`; `--al` is ambiguous with both candidates listed. -/
theorem long_option_abbreviation_resolution_witness :
    ((alist_get env_almost.opts.long_opts
        (strip_leading_hyphens (str "--all"))).isSome = true ∧
      env_almost.opts.get_matching_options (str "--all") =
        [strip_leading_hyphens (str "--all")]) ∧
    (∃ s', handle_long_option_without_equal env_almost
        ⟨[], [], [], none, false, [], none⟩ (str "--almost") = .ok s' ∧
      s'.cmd_opts = ([] : List AnpOption) ++ [opt_almost_all.clone]) ∧
    (handle_long_option_without_equal env_almost
        ⟨[], [], [], none, false, [], none⟩ (str "--al") =
      .err (.ambiguousOption (str "--al")
        ((env_almost.opts.long_opts.filter
          (fun p =>
            (strip_leading_hyphens (str "--al")).isPrefixOf p.1)).map (·.1)))
        ⟨[], [], [], none, false, [], none⟩) :=
  ⟨⟨by decide,
    long_option_abbreviation_resolution.1 env_almost.opts (str "--all")
      (by decide)⟩,
   long_option_abbreviation_resolution.2.1 env_almost
     ⟨[], [], [], none, false, [], none⟩ (str "--almost")
     (str "almost-all") 0 opt_almost_all (by decide) (by decide) (by decide)
     (by decide) (by decide) (by decide) (by decide),
   long_option_abbreviation_resolution.2.2 env_almost
     ⟨[], [], [], none, false, [], none⟩ (str "--al") (by decide) (by decide)
     (by decide)⟩

/-! ## C4 (amended) -/

/-- Tokens that the parser always stores verbatim: exactly `-`, or anything
not starting with `-` (such tokens are never option-shaped and never equal
`--`). -/
def plain_token (t : Str) : Bool :=
  match t with
  | '-' :: rest => rest.isEmpty
  | _ => true

theorem handle_unknown_plain (env : PEnv) (s : PState) (t : Str)
    (hcond : ¬((str "-").isPrefixOf t = true ∧ utf8_len t > 1)) :
    handle_unknown_token env s t =
      .ok { s with cmd_args := s.cmd_args ++ [t],
                   skip_parsing :=
                     (s.skip_parsing || env.stop_at_non_option) } := by
  unfold handle_unknown_token
  rw [if_neg (by intro h; exact hcond ⟨h.1, h.2.1⟩)]
  cases hstop : env.stop_at_non_option with
  | false => simp
  | true => simp

theorem handle_token_plain (env : PEnv) (s : PState) (t : Str)
    (hp : plain_token t = true) (hcur : s.current_option = none) :
    handle_token env s t =
      .ok { s with current_token := some t, cmd_args := s.cmd_args ++ [t],
                   skip_parsing :=
                     (s.skip_parsing || env.stop_at_non_option) } := by
  have hpre2 : (str "--").isPrefixOf t = false := by
    cases t with
    | nil => decide
    | cons c rest =>
      by_cases hc : c = '-'
      · subst hc
        have hrest : rest = [] := by
          simpa [plain_token, List.isEmpty_iff] using hp
        subst hrest
        decide
      · simp [str, List.isPrefixOf]
        intro he
        exact absurd he.symm hc
  have hne : ¬ t = str "--" := by
    intro he
    rw [he] at hpre2
    simp [str, List.isPrefixOf] at hpre2
  have hshort : ¬((str "-").isPrefixOf t = true ∧ ¬ t = str "-") := by
    cases t with
    | nil => intro h; simp [str, List.isPrefixOf] at h
    | cons c rest =>
      by_cases hc : c = '-'
      · subst hc
        have hrest : rest = [] := by
          simpa [plain_token, List.isEmpty_iff] using hp
        subst hrest
        intro h
        exact h.2 rfl
      · intro h
        have h1 := h.1
        simp [str, List.isPrefixOf] at h1
        exact hc h1.symm
  have hcond : ¬((str "-").isPrefixOf t = true ∧ utf8_len t > 1) := by
    cases t with
    | nil => decide
    | cons c rest =>
      by_cases hc : c = '-'
      · subst hc
        have hrest : rest = [] := by
          simpa [plain_token, List.isEmpty_iff] using hp
        subst hrest
        decide
      · intro h
        have h1 := h.1
        simp [str, List.isPrefixOf] at h1
        exact hc h1.symm
  simp only [handle_token]
  cases hsk : s.skip_parsing with
  | true => simp
  | false =>
    simp only [Bool.false_eq_true, if_false, if_neg hne, current_accepts,
      hcur]
    simp only [hpre2, Bool.false_eq_true, if_false, if_neg hshort]
    rw [handle_unknown_plain env _ t hcond]

theorem run_tokens_plain (env : PEnv) :
    ∀ (ts : List Str) (s : PState),
      (∀ t ∈ ts, plain_token t = true) → s.current_option = none →
      ∃ s', run_tokens env s ts = .ok s' ∧
        s'.cmd_args = s.cmd_args ++ ts ∧ s'.cmd_opts = s.cmd_opts ∧
        s'.current_option = none ∧ s'.expected_opts = s.expected_opts ∧
        s'.gstore = s.gstore := by
  intro ts
  induction ts with
  | nil =>
    intro s hall hcur
    exact ⟨s, rfl, by simp, rfl, hcur, rfl, rfl⟩
  | cons t rest ih =>
    intro s hall hcur
    have hstep := handle_token_plain env s t (hall t (by simp)) hcur
    obtain ⟨s', hrun, hargs, hopts, hcur', hexp, hg⟩ :=
      ih { s with
             current_token := some t
             cmd_args := s.cmd_args ++ [t]
             skip_parsing := (s.skip_parsing || env.stop_at_non_option) }
        (fun u hu => hall u (by simp [hu])) hcur
    refine ⟨s', ?_, ?_, hopts, hcur', hexp, hg⟩
    · rw [run_tokens, hstep]
      exact hrun
    · rw [hargs]
      simp

/-- C4 (amended): for a registry with no required obligations and no
defaults map, a token list in which every token is `-` or hyphen-free parses
successfully to exactly that list of positional arguments, in order, with no
option matched.  (The original claim fails for non-option-shaped tokens that
do start with a hyphen, which are rejected, and for `--`, which is
consumed.) -/
theorem plain_tokens_parse_to_positionals (env : PEnv)
    (g : List OptionGroup) (T : List Str)
    (hreq : env.opts.required_opts = [])
    (hdef : env.opts.defaults = none)
    (hT : ∀ t ∈ T, plain_token t = true) :
    parse_args env g T = .ok ⟨T, []⟩ (reset_groups env.opts g) := by
  obtain ⟨s', hrun, hargs, hopts, hcur', hexp, hg⟩ :=
    run_tokens_plain env T (init_state env g) hT rfl
  simp only [parse_args, pout_step, hrun, parse_finish, check_required_args,
    hcur', handle_defaults, hdef, check_required_options]
  have hexp2 : s'.expected_opts = [] := by
    rw [hexp]
    simp [init_state, Options.get_required_options, hreq]
  rw [hexp2]
  simp only [List.isEmpty_nil, if_true]
  simp [hargs, hopts, hg, init_state]

/-- Witness for C4's amended theorem: the `a`,`b`,`c`,`abc` registry (no
required obligations, no defaults) with the plain tokens `x`, `-`, and the
empty token. -/
theorem plain_tokens_parse_to_positionals_witness :
    env_abc_clash.opts.required_opts = [] ∧
    env_abc_clash.opts.defaults = none ∧
    (∀ t ∈ [str "x", str "-", str ""], plain_token t = true) ∧
    parse_args env_abc_clash [] [str "x", str "-", str ""] =
      .ok ⟨[str "x", str "-", str ""], []⟩
        (reset_groups env_abc_clash.opts []) :=
  ⟨rfl, rfl, by decide,
   plain_tokens_parse_to_positionals env_abc_clash [] _ rfl rfl (by decide)⟩

/-! ## C5 (amended) -/

/-- Overwrite the `current_token` recorded in a step outcome (used to relate
runs that differ only in the token text last seen). -/
def pr_set_ct (x : Option Str) : PR → PR
  | .ok s => .ok { s with current_token := x }
  | .err e s => .err e { s with current_token := x }
  | .abort => .abort

theorem check_required_args_ct (s : PState) (x : Option Str) :
    check_required_args { s with current_token := x } =
      pr_set_ct x (check_required_args s) := by
  rcases hco : s.current_option with _ | i
  · simp [check_required_args, hco, pr_set_ct]
  · rcases hget : s.cmd_opts[i]? with _ | o
    · simp [check_required_args, hco, hget, pr_set_ct]
    · by_cases hreq : o.requires_arg = true
      · simp [check_required_args, hco, hget, hreq, pr_set_ct]
      · simp [check_required_args, hco, hget, hreq, pr_set_ct]

theorem update_required_options_ct (env : PEnv) (s : PState)
    (x : Option Str) (o : AnpOption) :
    update_required_options env { s with current_token := x } o =
      pr_set_ct x (update_required_options env s o) := by
  by_cases hro : o.is_required = true
  all_goals
    rcases hg : env.opts.get_option_group o with _ | gid
  · simp [update_required_options, hro, hg, pr_set_ct]
  · rcases hgg : s.gstore[gid]? with _ | g
    · simp [update_required_options, hro, hg, hgg, pr_set_ct]
    · by_cases hgr : g.is_required = true
      all_goals rcases hsel : g.set_selected (some o) with e | g'
      all_goals
        simp [update_required_options, hro, hg, hgg, hgr, hsel, pr_set_ct]
  · simp [update_required_options, hro, hg, pr_set_ct]
  · rcases hgg : s.gstore[gid]? with _ | g
    · simp [update_required_options, hro, hg, hgg, pr_set_ct]
    · by_cases hgr : g.is_required = true
      all_goals rcases hsel : g.set_selected (some o) with e | g'
      all_goals
        simp [update_required_options, hro, hg, hgg, hgr, hsel, pr_set_ct]

theorem handle_option_ct (env : PEnv) (s : PState) (x : Option Str)
    (o : AnpOption) :
    handle_option env { s with current_token := x } o =
      pr_set_ct x (handle_option env s o) := by
  unfold handle_option
  rw [check_required_args_ct]
  cases hcra : check_required_args s with
  | ok s0 =>
    simp only [pr_set_ct]
    rw [update_required_options_ct]
    cases huro : update_required_options env s0 o.clone with
    | ok s1 => simp [pr_set_ct]
    | err e s1 => simp [pr_set_ct]
    | abort => simp [pr_set_ct]
  | err e s0 => simp [pr_set_ct]
  | abort => simp [pr_set_ct]

theorem defaults_step_ct (env : PEnv) (s : PState) (x : Option Str)
    (k v : Str) :
    defaults_step env { s with current_token := x } k v =
      pr_set_ct x (defaults_step env s k v) := by
  rcases hk : env.opts.get_option k with _ | id
  · simp [defaults_step, hk, pr_set_ct]
  · rcases ht : env.tstore[id]? with _ | tmpl
    · simp [defaults_step, List.get?_eq_getElem?, hk, ht, pr_set_ct]
    · simp only [defaults_step, List.get?_eq_getElem?, hk, ht]
      repeat' split
      all_goals simp [pr_set_ct]

theorem defaults_loop_ct (env : PEnv) (x : Option Str) :
    ∀ (ds : List (Str × Str)) (s : PState),
      defaults_loop env { s with current_token := x } ds =
        pr_set_ct x (defaults_loop env s ds) := by
  intro ds
  induction ds with
  | nil => intro s; rfl
  | cons p rest ih =>
    intro s
    obtain ⟨k, v⟩ := p
    rw [defaults_loop, defaults_loop, defaults_step_ct]
    cases hds : defaults_step env s k v with
    | ok s' =>
      simp only [pr_set_ct]
      exact ih s'
    | err e s' => simp [pr_set_ct]
    | abort => simp [pr_set_ct]

theorem handle_defaults_ct (env : PEnv) (s : PState) (x : Option Str) :
    handle_defaults env { s with current_token := x } =
      pr_set_ct x (handle_defaults env s) := by
  unfold handle_defaults
  cases hd : env.opts.defaults with
  | none => rfl
  | some ds => exact defaults_loop_ct env x ds s

theorem check_required_options_ct (s : PState) (x : Option Str) :
    check_required_options { s with current_token := x } =
      pr_set_ct x (check_required_options s) := by
  unfold check_required_options
  by_cases he : s.expected_opts.isEmpty = true
  · simp [he, pr_set_ct]
  · simp [he, pr_set_ct]

theorem parse_finish_ct (env : PEnv) (s : PState) (x : Option Str) :
    parse_finish env { s with current_token := x } = parse_finish env s := by
  unfold parse_finish
  rw [check_required_args_ct]
  cases h1 : check_required_args s with
  | ok s1 =>
    simp only [pr_set_ct]
    rw [handle_defaults_ct]
    cases h2 : handle_defaults env s1 with
    | ok s2 =>
      simp only [pr_set_ct]
      rw [check_required_options_ct]
      cases h3 : check_required_options s2 with
      | ok s3 => simp [pr_set_ct]
      | err e s3 => simp [pr_set_ct]
      | abort => simp [pr_set_ct]
    | err e s2 => simp [pr_set_ct]
    | abort => simp [pr_set_ct]
  | err e s1 => simp [pr_set_ct]
  | abort => simp [pr_set_ct]

theorem pr_set_ct_comp (x y : Option Str) (r : PR) :
    pr_set_ct x (pr_set_ct y r) = pr_set_ct x r := by
  cases r <;> simp [pr_set_ct]

theorem cra_ok_eq {s s' : PState} (h : check_required_args s = .ok s') :
    s' = s := by
  unfold check_required_args at h
  repeat' split at h
  all_goals first
    | (cases h; rfl)
    | exact absurd h (by simp)

theorem uro_ok_skip {env : PEnv} {s : PState} {o : AnpOption} {s1 : PState}
    (h : update_required_options env s o = .ok s1) :
    s1.skip_parsing = s.skip_parsing ∧
      s1.current_option = s.current_option ∧
      s1.cmd_opts = s.cmd_opts := by
  unfold update_required_options at h
  dsimp only at h
  repeat' split at h
  all_goals first
    | (cases h; exact ⟨rfl, rfl, rfl⟩)
    | exact absurd h (by simp)

theorem handle_option_noarg_fields {env : PEnv} {s : PState} {o : AnpOption}
    {s' : PState} (hno : o.has_arg = false)
    (h : handle_option env s o = .ok s') :
    s'.current_option = none ∧ s'.skip_parsing = s.skip_parsing := by
  unfold handle_option at h
  cases hcra : check_required_args s with
  | ok s0 =>
    rw [hcra] at h
    rw [show s0 = s from cra_ok_eq hcra] at h
    dsimp only at h
    cases huro : update_required_options env s o.clone with
    | ok s1 =>
      rw [huro] at h
      have hclone : o.clone.has_arg = o.has_arg := rfl
      cases h
      refine ⟨?_, (uro_ok_skip huro).1⟩
      simp [hclone, hno]
    | err e s1 => rw [huro] at h; exact absurd h (by simp)
    | abort => rw [huro] at h; exact absurd h (by simp)
  | err e s0 => rw [hcra] at h; exact absurd h (by simp)
  | abort => rw [hcra] at h; exact absurd h (by simp)

theorem short_token_step (env : PEnv) (s : PState) (tok t1 : Str) (i : Nat)
    (o : AnpOption)
    (hskip : s.skip_parsing = false) (hcur : s.current_option = none)
    (hne2 : ¬ tok = str "--")
    (hpre2 : (str "--").isPrefixOf tok = false)
    (hpre1 : ((str "-").isPrefixOf tok = true ∧ ¬ tok = str "-"))
    (hstrip : strip_leading_hyphens tok = t1)
    (hstrip1 : strip_leading_hyphens t1 = t1)
    (hlen : utf8_len t1 = 1)
    (hs : alist_get env.opts.short_opts t1 = some i)
    (ht : env.tstore.get? i = some o) :
    handle_token env s tok = pr_set_ct (some tok) (handle_option env s o) := by
  simp only [handle_token, hskip, Bool.false_eq_true, if_false,
    if_neg hne2, current_accepts, hcur]
  simp only [hpre2, Bool.false_eq_true, if_false, if_pos hpre1]
  simp only [handle_short_and_long_option, hstrip, hlen, if_true,
    Options.has_short_option, hstrip1, hs, Option.isSome_some, if_true,
    Options.get_option, ht]
  have hrec : ({ gstore := s.gstore
                 cmd_args := s.cmd_args
                 cmd_opts := s.cmd_opts
                 current_option := none
                 skip_parsing := false
                 expected_opts := s.expected_opts
                 current_token := some tok } : PState) =
      { s with current_token := some tok } := by
    simp [PState.mk.injEq, hcur, hskip]
  rw [hrec]
  exact handle_option_ct env s (some tok) o

theorem token_abc_routes (env : PEnv) (s : PState)
    (hskip : s.skip_parsing = false) (hcur : s.current_option = none)
    (habc : env.opts.has_short_option (str "abc") = false)
    (hm : get_matching_long_options env (str "abc") = some []) :
    handle_token env s (str "-abc") =
      concat_loop env (str "-abc")
        { s with current_token := some (str "-abc") } 1 (str "abc") := by
  simp only [handle_token, hskip, Bool.false_eq_true, if_false,
    if_neg (show ¬ (str "-abc") = str "--" by decide), current_accepts, hcur]
  simp only [show (str "--").isPrefixOf (str "-abc") = false by decide,
    Bool.false_eq_true, if_false,
    if_pos (show ((str "-").isPrefixOf (str "-abc") = true ∧
      ¬ str "-abc" = str "-") by decide)]
  simp only [handle_short_and_long_option,
    show strip_leading_hyphens (str "-abc") = str "abc" by decide,
    show split_first '=' (str "abc") = none by decide,
    if_neg (show ¬ (utf8_len (str "abc") = 1) by decide), habc,
    Bool.false_eq_true, if_false, hm, List.isEmpty_nil, Bool.not_true,
    handle_concatenated_options,
    show (str "-abc").drop 1 = str "abc" by decide]

theorem pout_step_ct (env : PEnv) (x : Option Str) (r : PR) :
    pout_step env (pr_set_ct x r) = pout_step env r := by
  cases r with
  | ok s =>
    simp only [pr_set_ct, pout_step]
    exact parse_finish_ct env s x
  | err e s => simp [pr_set_ct, pout_step]
  | abort => rfl

/-- C5 (amended): in a registry where `a`, `b`, `c` are registered
no-argument short options, where `abc` is not itself a short-option key and
no long option matches `abc` (so `-abc` takes the concatenated-flags walk),
the token lists `[-a, -b, -c]` and `[-abc]` produce the same parse result —
in particular identical matched-option sets.  (The original claim fails when
another registered key captures `-abc` whole, see the counterexample.) -/
theorem concatenated_flags_parse_equally (env : PEnv) (g : List OptionGroup)
    (ia ib ic : Nat) (oa ob oc : AnpOption)
    (ha : alist_get env.opts.short_opts ['a'] = some ia)
    (hb : alist_get env.opts.short_opts ['b'] = some ib)
    (hcc : alist_get env.opts.short_opts ['c'] = some ic)
    (hta : env.tstore.get? ia = some oa)
    (htb : env.tstore.get? ib = some ob)
    (htc : env.tstore.get? ic = some oc)
    (hna : oa.has_arg = false) (hnb : ob.has_arg = false)
    (hnc : oc.has_arg = false)
    (habc : env.opts.has_short_option (str "abc") = false)
    (hm : get_matching_long_options env (str "abc") = some []) :
    parse_args env g [str "-a", str "-b", str "-c"] =
      parse_args env g [str "-abc"] := by
  have hga : env.opts.get_option ['a'] = some ia := by
    simp only [Options.get_option,
      show strip_leading_hyphens ['a'] = ['a'] by decide, ha]
  have hgb : env.opts.get_option ['b'] = some ib := by
    simp only [Options.get_option,
      show strip_leading_hyphens ['b'] = ['b'] by decide, hb]
  have hgc : env.opts.get_option ['c'] = some ic := by
    simp only [Options.get_option,
      show strip_leading_hyphens ['c'] = ['c'] by decide, hcc]
  suffices hruns : ∃ (r : PR) (x y : Option Str),
      run_tokens env (init_state env g) [str "-a", str "-b", str "-c"] =
        pr_set_ct x r ∧
      run_tokens env (init_state env g) [str "-abc"] = pr_set_ct y r by
    obtain ⟨r, x, y, h1, h2⟩ := hruns
    unfold parse_args
    rw [h1, h2, pout_step_ct, pout_step_ct]
  have hskip0 : (init_state env g).skip_parsing = false := rfl
  have hcur0 : (init_state env g).current_option = none := rfl
  have hstep_a := short_token_step env (init_state env g) (str "-a") ['a']
    ia oa hskip0 hcur0 (by decide) (by decide) (by decide) (by decide)
    (by decide) (by decide) ha hta
  have hroute := token_abc_routes env (init_state env g) hskip0 hcur0 habc hm
  cases hr1 : handle_option env (init_state env g) oa with
  | abort =>
    refine ⟨.abort, none, none, ?_, ?_⟩
    · simp only [run_tokens, hstep_a, hr1, pr_set_ct]
    · simp only [run_tokens, hroute, concat_loop, hga, hta,
        handle_option_ct env (init_state env g) (some (str "-abc")) oa,
        hr1, pr_set_ct]
  | err e u =>
    refine ⟨.err e u, some (str "-a"), some (str "-abc"), ?_, ?_⟩
    · simp only [run_tokens, hstep_a, hr1, pr_set_ct]
    · simp only [run_tokens, hroute, concat_loop, hga, hta,
        handle_option_ct env (init_state env g) (some (str "-abc")) oa,
        hr1, pr_set_ct]
  | ok u =>
    have hu := handle_option_noarg_fields hna hr1
    have huskip : u.skip_parsing = false := by rw [hu.2]; exact hskip0
    have hucur : u.current_option = none := hu.1
    have hueq : ({ u with current_option := none } : PState) = u := by
      rw [← hucur]
    have hstep_b := short_token_step env
      { u with current_token := some (str "-a") } (str "-b") ['b'] ib ob
      huskip hucur (by decide) (by decide) (by decide) (by decide)
      (by decide) (by decide) hb htb
    rw [handle_option_ct env u (some (str "-a")) ob, pr_set_ct_comp]
      at hstep_b
    cases hr2 : handle_option env u ob with
    | abort =>
      refine ⟨.abort, none, none, ?_, ?_⟩
      · simp only [run_tokens, hstep_a, hr1, pr_set_ct, hstep_b, hr2]
      · simp only [run_tokens, hroute, concat_loop, hga, hta,
          handle_option_ct env (init_state env g) (some (str "-abc")) oa,
          hr1, pr_set_ct, hucur, hgb, htb,
          handle_option_ct env { u with current_option := none }
            (some (str "-abc")) ob, hueq, hr2]
    | err e v =>
      refine ⟨.err e v, some (str "-b"), some (str "-abc"), ?_, ?_⟩
      · simp only [run_tokens, hstep_a, hr1, pr_set_ct, hstep_b, hr2]
      · simp only [run_tokens, hroute, concat_loop, hga, hta,
          handle_option_ct env (init_state env g) (some (str "-abc")) oa,
          hr1, pr_set_ct, hucur, hgb, htb,
          handle_option_ct env { u with current_option := none }
            (some (str "-abc")) ob, hueq, hr2]
    | ok v =>
      have hv := handle_option_noarg_fields hnb hr2
      have hvskip : v.skip_parsing = false := by rw [hv.2]; exact huskip
      have hvcur : v.current_option = none := hv.1
      have hveq : ({ v with current_option := none } : PState) = v := by
        rw [← hvcur]
      have hstep_c := short_token_step env
        { v with current_token := some (str "-b") } (str "-c") ['c'] ic oc
        hvskip hvcur (by decide) (by decide) (by decide) (by decide)
        (by decide) (by decide) hcc htc
      rw [handle_option_ct env v (some (str "-b")) oc, pr_set_ct_comp]
        at hstep_c
      cases hr3 : handle_option env v oc with
      | abort =>
        refine ⟨.abort, none, none, ?_, ?_⟩
        · simp only [run_tokens, hstep_a, hr1, pr_set_ct, hstep_b, hr2,
            hstep_c, hr3]
        · simp only [run_tokens, hroute, concat_loop, hga, hta,
            handle_option_ct env (init_state env g) (some (str "-abc")) oa,
            hr1, pr_set_ct, hucur, hgb, htb,
            handle_option_ct env { u with current_option := none }
            (some (str "-abc")) ob, hueq, hr2, hvcur,
            hgc, htc, handle_option_ct env { v with current_option := none }
            (some (str "-abc")) oc, hveq, hr3]
      | err e w =>
        refine ⟨.err e w, some (str "-c"), some (str "-abc"), ?_, ?_⟩
        · simp only [run_tokens, hstep_a, hr1, pr_set_ct, hstep_b, hr2,
            hstep_c, hr3]
        · simp only [run_tokens, hroute, concat_loop, hga, hta,
            handle_option_ct env (init_state env g) (some (str "-abc")) oa,
            hr1, pr_set_ct, hucur, hgb, htb,
            handle_option_ct env { u with current_option := none }
            (some (str "-abc")) ob, hueq, hr2, hvcur,
            hgc, htc, handle_option_ct env { v with current_option := none }
            (some (str "-abc")) oc, hveq, hr3]
      | ok w =>
        have hw := handle_option_noarg_fields hnc hr3
        refine ⟨.ok { w with current_option := none }, some (str "-c"),
          some (str "-abc"), ?_, ?_⟩
        · simp only [run_tokens, hstep_a, hr1, pr_set_ct, hstep_b, hr2,
            hstep_c, hr3, hw.1]
        · simp only [run_tokens, hroute, concat_loop, hga, hta,
            handle_option_ct env (init_state env g) (some (str "-abc")) oa,
            hr1, pr_set_ct, hucur, hgb, htb,
            handle_option_ct env { u with current_option := none }
            (some (str "-abc")) ob, hueq, hr2, hvcur,
            hgc, htc, handle_option_ct env { v with current_option := none }
            (some (str "-abc")) oc, hveq, hr3,
            hw.1]

theorem concatenated_flags_parse_equally_witness :
    parse_args env_abc_free [] [str "-a", str "-b", str "-c"] =
      parse_args env_abc_free [] [str "-abc"] :=
  concatenated_flags_parse_equally env_abc_free [] 0 1 2 opt_a opt_b opt_c
    rfl rfl rfl rfl rfl rfl rfl rfl rfl (by decide) (by decide)

/-! ## C2: the start-of-parse group reset absorbs all parse-time writes -/

theorem reset_at_get (g : List OptionGroup) (i j : Nat) :
    (reset_at g i)[j]? =
      if i = j then (g[j]?).map (fun grp => { grp with selected := none })
      else g[j]? := by
  unfold reset_at
  rcases hgi : g.get? i with _ | grp
  · rw [List.get?_eq_getElem?] at hgi
    by_cases hij : i = j
    · subst hij; simp [hgi]
    · simp [hij]
  · rw [List.get?_eq_getElem?] at hgi
    have hlen : i < g.length := (List.getElem?_eq_some.mp hgi).1
    rw [List.getElem?_set]
    by_cases hij : i = j
    · subst hij; simp [hgi, hlen]
    · simp [hij]

theorem foldl_reset_get (ids : List Nat) (g : List OptionGroup) (j : Nat) :
    (ids.foldl reset_at g)[j]? =
      if j ∈ ids then (g[j]?).map (fun grp => { grp with selected := none })
      else g[j]? := by
  induction ids generalizing g with
  | nil => simp
  | cons i rest ih =>
    simp only [List.foldl_cons]
    rw [ih (reset_at g i), reset_at_get]
    by_cases hjr : j ∈ rest
    · by_cases hij : i = j
      · subst hij
        simp only [hjr, if_true, List.mem_cons, true_or, or_true]
        cases g[i]? <;> rfl
      · have hji : ¬ j = i := fun hh => hij hh.symm
        simp [hjr, hij, hji, List.mem_cons]
    · by_cases hij : i = j
      · subst hij; simp [hjr]
      · have hji : ¬ j = i := fun hh => hij hh.symm
        simp [hjr, hij, hji, List.mem_cons]

theorem reset_groups_get (opts : Options) (g : List OptionGroup) (j : Nat) :
    (reset_groups opts g)[j]? =
      if j ∈ opts.option_groups.map (fun p => p.2) then
        (g[j]?).map (fun grp => { grp with selected := none })
      else g[j]? := by
  unfold reset_groups
  exact foldl_reset_get _ g j

theorem reset_groups_idem (opts : Options) (g : List OptionGroup) :
    reset_groups opts (reset_groups opts g) = reset_groups opts g := by
  apply List.ext_getElem?
  intro j
  rw [reset_groups_get, reset_groups_get]
  by_cases hj : j ∈ opts.option_groups.map (fun p => p.2)
  · simp only [hj, if_true]
    cases g[j]? <;> rfl
  · simp [hj]

theorem reset_groups_set_absorb (opts : Options) (g : List OptionGroup)
    (gid : Nat) (grp grp' : OptionGroup)
    (hget : g[gid]? = some grp)
    (hmem : gid ∈ opts.option_groups.map (fun p => p.2))
    (hmap : grp'.option_map = grp.option_map)
    (hreq : grp'.required = grp.required) :
    reset_groups opts (g.set gid grp') = reset_groups opts g := by
  have hlen : gid < g.length := (List.getElem?_eq_some.mp hget).1
  apply List.ext_getElem?
  intro j
  rw [reset_groups_get, reset_groups_get, List.getElem?_set]
  by_cases hij : gid = j
  · subst hij
    simp only [if_pos rfl, hlen, if_true, hget, hmem, Option.map]
    cases grp; cases grp'
    simp_all
  · simp [hij]

theorem alist_get_mem {α : Type} (m : List (Str × α)) (k : Str) (v : α)
    (h : alist_get m k = some v) : v ∈ m.map (fun p => p.2) := by
  unfold alist_get at h
  rcases hf : m.find? (fun p => p.1 == k) with _ | p <;> rw [hf] at h
  · cases h
  · exact List.mem_map.mpr ⟨p, List.mem_of_find?_eq_some hf, by simpa using h⟩

theorem set_selected_fields {g : OptionGroup} {x : Option AnpOption}
    {g' : OptionGroup} (h : g.set_selected x = .ok g') :
    g'.option_map = g.option_map ∧ g'.required = g.required := by
  unfold OptionGroup.set_selected at h
  repeat' split at h
  all_goals first
    | (cases h; exact ⟨rfl, rfl⟩)
    | exact absurd h (by simp)

theorem cra_err_eq {s : PState} {e : ParseErr} {s' : PState}
    (h : check_required_args s = .err e s') : s' = s := by
  unfold check_required_args at h
  repeat' split at h
  all_goals first
    | (cases h; rfl)
    | exact absurd h (by simp)

theorem update_required_options_gs {env : PEnv} {s : PState} {o : AnpOption}
    {g' : List OptionGroup}
    (h : gs_of (update_required_options env s o) = some g') :
    reset_groups env.opts g' = reset_groups env.opts s.gstore := by
  unfold update_required_options at h
  dsimp only at h
  set s1 := (if o.is_required = true then
      { s with expected_opts := (remove_first
          (fun r => required_eqb s.gstore r (.optKey o.get_key))
          s.expected_opts) }
    else s) with hs1def
  have hgs1 : s1.gstore = s.gstore := by
    rw [hs1def]; split <;> rfl
  rcases hgg : env.opts.get_option_group o with _ | gid <;>
    simp only [hgg] at h
  · simp only [gs_of, Option.some.injEq] at h
    rw [← h, hgs1]
  · rcases hget : s1.gstore.get? gid with _ | g0 <;>
      simp only [hget] at h
    · simp only [gs_of] at h
      exact absurd h (by simp)
    · set s2 := (if g0.is_required = true then
          { s1 with expected_opts := (remove_first
              (fun r => required_eqb s1.gstore r (.optGroup gid))
              s1.expected_opts) }
        else s1) with hs2def
      have hgs2 : s2.gstore = s.gstore := by
        rw [hs2def]; split
        · exact hgs1
        · exact hgs1
      cases hss : g0.set_selected (some o) with
      | error e =>
        rw [hss] at h
        simp only [gs_of, Option.some.injEq] at h
        rw [← h, hgs2]
      | ok g2 =>
        rw [hss] at h
        simp only [gs_of, Option.some.injEq] at h
        rw [← h]
        have hfields := set_selected_fields hss
        unfold Options.get_option_group at hgg
        have hmem : gid ∈ env.opts.option_groups.map (fun p => p.2) :=
          alist_get_mem _ _ _ hgg
        have hget' : s.gstore[gid]? = some g0 := by
          rw [← hgs1, ← List.get?_eq_getElem?]
          exact hget
        rw [hgs2]
        exact reset_groups_set_absorb env.opts s.gstore gid g0 g2 hget'
          hmem hfields.1 hfields.2

theorem handle_option_gs {env : PEnv} {s : PState} {o : AnpOption}
    {g' : List OptionGroup}
    (h : gs_of (handle_option env s o) = some g') :
    reset_groups env.opts g' = reset_groups env.opts s.gstore := by
  unfold handle_option at h
  cases hcra : check_required_args s with
  | ok s0 =>
    simp only [hcra] at h
    rw [show s0 = s from cra_ok_eq hcra] at h
    cases huro : update_required_options env s o.clone with
    | ok s1 =>
      simp only [huro, gs_of, Option.some.injEq] at h
      rw [← h]
      exact update_required_options_gs (by rw [huro]; rfl)
    | err e s1 =>
      simp only [huro, gs_of, Option.some.injEq] at h
      rw [← h]
      exact update_required_options_gs (by rw [huro]; rfl)
    | abort =>
      simp only [huro, gs_of] at h
      exact Option.noConfusion h
  | err e s1 =>
    simp only [hcra, gs_of, Option.some.injEq] at h
    rw [← h, show s1 = s from cra_err_eq hcra]
  | abort =>
    simp only [hcra, gs_of] at h
    exact Option.noConfusion h

theorem add_to_current_gs {s : PState} {raw : Str} {d : String}
    {g' : List OptionGroup}
    (h : gs_of (add_to_current s raw d) = some g') : g' = s.gstore := by
  unfold add_to_current at h
  repeat' split at h
  all_goals simp only [gs_of, Option.some.injEq] at h
  all_goals first
    | exact h.symm
    | exact absurd h (by simp)

theorem handle_unknown_token_gs {env : PEnv} {s : PState} {token : Str}
    {g' : List OptionGroup}
    (h : gs_of (handle_unknown_token env s token) = some g') :
    g' = s.gstore := by
  unfold handle_unknown_token at h
  dsimp only at h
  repeat' split at h
  all_goals simp only [gs_of, Option.some.injEq] at h
  all_goals exact h.symm

theorem check_required_options_gs {s : PState} {g' : List OptionGroup}
    (h : gs_of (check_required_options s) = some g') : g' = s.gstore := by
  unfold check_required_options at h
  split at h
  all_goals simp only [gs_of, Option.some.injEq] at h
  all_goals exact h.symm

theorem defaults_step_gs {env : PEnv} {s : PState} {k v : Str}
    {g' : List OptionGroup}
    (h : gs_of (defaults_step env s k v) = some g') : g' = s.gstore := by
  unfold defaults_step at h
  dsimp only at h
  repeat' split at h
  all_goals simp only [gs_of, Option.some.injEq] at h
  all_goals first
    | exact h.symm
    | exact absurd h (by simp)

theorem defaults_loop_gs {env : PEnv} :
    ∀ (ds : List (Str × Str)) (s : PState) {g' : List OptionGroup},
    gs_of (defaults_loop env s ds) = some g' → g' = s.gstore := by
  intro ds
  induction ds with
  | nil =>
    intro s g' h
    simp only [defaults_loop, gs_of, Option.some.injEq] at h
    exact h.symm
  | cons kv rest ih =>
    intro s g' h
    obtain ⟨k, v⟩ := kv
    simp only [defaults_loop] at h
    cases hds : defaults_step env s k v with
    | ok s1 =>
      simp only [hds] at h
      rw [ih s1 h]
      exact @defaults_step_gs env s k v s1.gstore (by rw [hds]; rfl)
    | err e s1 =>
      simp only [hds, gs_of, Option.some.injEq] at h
      rw [← h]
      exact @defaults_step_gs env s k v s1.gstore (by rw [hds]; rfl)
    | abort =>
      simp only [hds, gs_of] at h
      exact Option.noConfusion h

theorem handle_defaults_gs {env : PEnv} {s : PState} {g' : List OptionGroup}
    (h : gs_of (handle_defaults env s) = some g') : g' = s.gstore := by
  unfold handle_defaults at h
  cases hd : env.opts.defaults with
  | none =>
    simp only [hd, gs_of, Option.some.injEq] at h
    exact h.symm
  | some ds =>
    simp only [hd] at h
    exact defaults_loop_gs ds s h

theorem atc_wrap_gs {s1 : PState} {X : Str} {D : String}
    {g' : List OptionGroup}
    (h : gs_of (match add_to_current s1 X D with
      | .ok s2 => .ok { s2 with current_option := none }
      | r => r) = some g') : g' = s1.gstore := by
  cases hatc : add_to_current s1 X D with
  | ok s2 =>
    simp only [hatc, gs_of, Option.some.injEq] at h
    rw [← h]
    exact add_to_current_gs (by rw [hatc]; rfl)
  | err e s2 =>
    simp only [hatc, gs_of, Option.some.injEq] at h
    rw [← h]
    exact add_to_current_gs (by rw [hatc]; rfl)
  | abort =>
    simp only [hatc, gs_of] at h
    exact Option.noConfusion h

theorem atc_wrap2_gs {s1 : PState} {X : Str} {D : String}
    {g' : List OptionGroup}
    (h : gs_of (match add_to_current s1 X D with
      | .ok s2 => .ok s2
      | r => r) = some g') : g' = s1.gstore := by
  cases hatc : add_to_current s1 X D with
  | ok s2 =>
    simp only [hatc, gs_of, Option.some.injEq] at h
    rw [← h]
    exact add_to_current_gs (by rw [hatc]; rfl)
  | err e s2 =>
    simp only [hatc, gs_of, Option.some.injEq] at h
    rw [← h]
    exact add_to_current_gs (by rw [hatc]; rfl)
  | abort =>
    simp only [hatc, gs_of] at h
    exact Option.noConfusion h

theorem handle_long_option_without_equal_gs {env : PEnv} {s : PState}
    {token : Str} {g' : List OptionGroup}
    (h : gs_of (handle_long_option_without_equal env s token) = some g') :
    reset_groups env.opts g' = reset_groups env.opts s.gstore := by
  unfold handle_long_option_without_equal at h
  dsimp only at h
  repeat' split at h
  all_goals first
    | exact handle_option_gs h
    | rw [handle_unknown_token_gs h]
    | (simp only [gs_of, Option.some.injEq] at h; rw [← h])
    | (simp only [gs_of] at h; exact Option.noConfusion h)

theorem handle_long_option_with_equal_gs {env : PEnv} {s : PState}
    {token : Str} {g' : List OptionGroup}
    (h : gs_of (handle_long_option_with_equal env s token) = some g') :
    reset_groups env.opts g' = reset_groups env.opts s.gstore := by
  unfold handle_long_option_with_equal at h
  dsimp only at h
  rcases hsp : split_first '=' token with _ | ⟨opt, value⟩ <;>
    simp only [hsp] at h
  · exact Option.noConfusion h
  · rcases hm : get_matching_long_options env opt with _ | matching <;>
      simp only [hm] at h
    · exact Option.noConfusion h
    · by_cases he : matching.isEmpty = true
      · rw [if_pos he] at h
        rcases hct : s.current_token with _ | ct <;> simp only [hct] at h
        · exact Option.noConfusion h
        · rw [handle_unknown_token_gs h]
      · rw [if_neg he] at h
        by_cases ha : (matching.length > 1 ∧
            ¬env.opts.has_long_option opt = true)
        · rw [if_pos ha] at h
          simp only [gs_of, Option.some.injEq] at h
          rw [← h]
        · rw [if_neg ha] at h
          rcases hgo : env.opts.get_option
              (if env.opts.has_long_option opt = true then opt
               else matching.headD []) with _ | id <;>
            simp only [hgo] at h
          · exact Option.noConfusion h
          · rcases hts : env.tstore.get? id with _ | o <;>
              simp only [hts] at h
            · exact Option.noConfusion h
            · by_cases hacc : o.accepts_arg = true
              · rw [if_pos hacc] at h
                cases hho : handle_option env s o with
                | ok s1 =>
                  simp only [hho] at h
                  rw [atc_wrap_gs h]
                  exact @handle_option_gs env s o s1.gstore (by rw [hho]; rfl)
                | err e s1 =>
                  simp only [hho, gs_of, Option.some.injEq] at h
                  rw [← h]
                  exact @handle_option_gs env s o s1.gstore (by rw [hho]; rfl)
                | abort =>
                  simp only [hho, gs_of] at h
                  exact Option.noConfusion h
              · rw [if_neg hacc] at h
                rcases hct : s.current_token with _ | ct <;>
                  simp only [hct] at h
                · exact Option.noConfusion h
                · rw [handle_unknown_token_gs h]

theorem handle_long_option_gs {env : PEnv} {s : PState} {token : Str}
    {g' : List OptionGroup}
    (h : gs_of (handle_long_option env s token) = some g') :
    reset_groups env.opts g' = reset_groups env.opts s.gstore := by
  unfold handle_long_option at h
  rcases hsp : split_first '=' token with _ | p <;> simp only [hsp] at h
  · exact handle_long_option_without_equal_gs h
  · exact handle_long_option_with_equal_gs h

theorem concat_loop_gs {env : PEnv} {token : Str} :
    ∀ (rest : Str) (s : PState) (i : Nat) {g' : List OptionGroup},
    gs_of (concat_loop env token s i rest) = some g' →
    reset_groups env.opts g' = reset_groups env.opts s.gstore := by
  intro rest
  induction rest with
  | nil =>
    intro s i g' h
    simp only [concat_loop, gs_of, Option.some.injEq] at h
    rw [← h]
  | cons ch rest ih =>
    intro s i g' h
    simp only [concat_loop] at h
    rcases hgo : env.opts.get_option [ch] with _ | id <;>
      simp only [hgo] at h
    · rcases harg : (if env.stop_at_non_option = true ∧ i > 1 then
          slice_from_byte token i else some token) with _ | a <;>
        simp only [harg] at h
      · exact Option.noConfusion h
      · rw [handle_unknown_token_gs h]
    · rcases hts : env.tstore.get? id with _ | o <;> simp only [hts] at h
      · exact Option.noConfusion h
      · cases hho : handle_option env s o with
        | ok s1 =>
          simp only [hho] at h
          rcases hco : s1.current_option with _ | val <;>
            simp only [hco] at h
          · rw [ih s1 (i + 1) h]
            exact @handle_option_gs env s o s1.gstore (by rw [hho]; rfl)
          · by_cases hlen : (token.length ≠ i + 1)
            · rw [if_pos hlen] at h
              rcases hsl : slice_from_byte token (i + 1) with _ | v <;>
                simp only [hsl] at h
              · exact Option.noConfusion h
              · rw [atc_wrap2_gs h]
                exact @handle_option_gs env s o s1.gstore (by rw [hho]; rfl)
            · rw [if_neg hlen] at h
              rw [ih s1 (i + 1) h]
              exact @handle_option_gs env s o s1.gstore (by rw [hho]; rfl)
        | err e s1 =>
          simp only [hho, gs_of, Option.some.injEq] at h
          rw [← h]
          exact @handle_option_gs env s o s1.gstore (by rw [hho]; rfl)
        | abort =>
          simp only [hho, gs_of] at h
          exact Option.noConfusion h

theorem handle_short_and_long_option_gs {env : PEnv} {s : PState}
    {token : Str} {g' : List OptionGroup}
    (h : gs_of (handle_short_and_long_option env s token) = some g') :
    reset_groups env.opts g' = reset_groups env.opts s.gstore := by
  unfold handle_short_and_long_option at h
  dsimp only at h
  by_cases h1 : utf8_len (strip_leading_hyphens token) = 1
  · rw [if_pos h1] at h
    by_cases h2 : env.opts.has_short_option (strip_leading_hyphens token)
        = true
    · rw [if_pos h2] at h
      rcases hgo : env.opts.get_option (strip_leading_hyphens token)
          with _ | id <;> simp only [hgo] at h
      · exact Option.noConfusion h
      · rcases hts : env.tstore.get? id with _ | o <;> simp only [hts] at h
        · exact Option.noConfusion h
        · exact handle_option_gs h
    · rw [if_neg h2] at h
      rw [handle_unknown_token_gs h]
  · rw [if_neg h1] at h
    rcases hsp : split_first '=' (strip_leading_hyphens token)
        with _ | ⟨opt, value⟩ <;> simp only [hsp] at h
    · by_cases h2 : env.opts.has_short_option (strip_leading_hyphens token)
          = true
      · rw [if_pos h2] at h
        rcases hgo : env.opts.get_option (strip_leading_hyphens token)
            with _ | id <;> simp only [hgo] at h
        · exact Option.noConfusion h
        · rcases hts : env.tstore.get? id with _ | o <;>
            simp only [hts] at h
          · exact Option.noConfusion h
          · exact handle_option_gs h
      · rw [if_neg h2] at h
        rcases hm : get_matching_long_options env
            (strip_leading_hyphens token) with _ | m <;> simp only [hm] at h
        · exact Option.noConfusion h
        · by_cases hme : (!m.isEmpty) = true
          · rw [if_pos hme] at h
            exact handle_long_option_without_equal_gs h
          · rw [if_neg hme] at h
            unfold handle_concatenated_options at h
            exact concat_loop_gs _ s 1 h
    · by_cases ho1 : utf8_len opt = 1
      · rw [if_pos ho1] at h
        rcases hgo : env.opts.get_option opt with _ | id <;>
          simp only [hgo] at h
        · rw [handle_unknown_token_gs h]
        · rcases hts : env.tstore.get? id with _ | o <;>
            simp only [hts] at h
          · exact Option.noConfusion h
          · by_cases hacc : o.accepts_arg = true
            · rw [if_pos hacc] at h
              cases hho : handle_option env s o with
              | ok s1 =>
                simp only [hho] at h
                rw [atc_wrap_gs h]
                exact @handle_option_gs env s o s1.gstore (by rw [hho]; rfl)
              | err e s1 =>
                simp only [hho, gs_of, Option.some.injEq] at h
                rw [← h]
                exact @handle_option_gs env s o s1.gstore (by rw [hho]; rfl)
              | abort =>
                simp only [hho, gs_of] at h
                exact Option.noConfusion h
            · rw [if_neg hacc] at h
              rw [handle_unknown_token_gs h]
      · rw [if_neg ho1] at h
        exact handle_long_option_with_equal_gs h

theorem handle_token_gs {env : PEnv} {s : PState} {token : Str}
    {g' : List OptionGroup}
    (h : gs_of (handle_token env s token) = some g') :
    reset_groups env.opts g' = reset_groups env.opts s.gstore := by
  unfold handle_token at h
  dsimp only at h
  by_cases hsk : s.skip_parsing = true
  · rw [if_pos hsk] at h
    simp only [gs_of, Option.some.injEq] at h
    rw [← h]
  · rw [if_neg hsk] at h
    by_cases hdd : token = str "--"
    · rw [if_pos hdd] at h
      simp only [gs_of, Option.some.injEq] at h
      rw [← h]
    · rw [if_neg hdd] at h
      rcases hca : current_accepts env { s with current_token := some token }
          token with _ | b
      · simp only [hca] at h
        exact Option.noConfusion h
      · cases b <;> simp only [hca] at h
        · by_cases hp2 : (str "--").isPrefixOf token = true
          · rw [if_pos hp2] at h
            exact @handle_long_option_gs env
              { s with current_token := some token } token g' h
          · rw [if_neg hp2] at h
            by_cases hp1 : ((str "-").isPrefixOf token = true ∧
                ¬token = str "-")
            · rw [if_pos hp1] at h
              exact @handle_short_and_long_option_gs env
                { s with current_token := some token } token g' h
            · rw [if_neg hp1] at h
              rw [handle_unknown_token_gs h]
        · rw [add_to_current_gs h]

theorem run_tokens_gs {env : PEnv} :
    ∀ (T : List Str) (s : PState) {g' : List OptionGroup},
    gs_of (run_tokens env s T) = some g' →
    reset_groups env.opts g' = reset_groups env.opts s.gstore := by
  intro T
  induction T with
  | nil =>
    intro s g' h
    simp only [run_tokens, gs_of, Option.some.injEq] at h
    rw [← h]
  | cons t ts ih =>
    intro s g' h
    simp only [run_tokens] at h
    cases hht : handle_token env s t with
    | ok s1 =>
      simp only [hht] at h
      rw [ih s1 h]
      exact @handle_token_gs env s t s1.gstore (by rw [hht]; rfl)
    | err e s1 =>
      simp only [hht, gs_of, Option.some.injEq] at h
      rw [← h]
      exact @handle_token_gs env s t s1.gstore (by rw [hht]; rfl)
    | abort =>
      simp only [hht, gs_of] at h
      exact Option.noConfusion h

theorem parse_finish_gs {env : PEnv} {s : PState} {g' : List OptionGroup}
    (h : final_gstore (parse_finish env s) = some g') : g' = s.gstore := by
  unfold parse_finish at h
  cases hcra : check_required_args s with
  | ok s1 =>
    simp only [hcra] at h
    rw [show s1 = s from cra_ok_eq hcra] at h
    cases hd : handle_defaults env s with
    | ok s2 =>
      simp only [hd] at h
      have h2 : s2.gstore = s.gstore := handle_defaults_gs (by rw [hd]; rfl)
      cases hcro : check_required_options s2 with
      | ok s3 =>
        simp only [hcro, final_gstore, Option.some.injEq] at h
        have h3 : s3.gstore = s2.gstore :=
          check_required_options_gs (by rw [hcro]; rfl)
        rw [← h, h3, h2]
      | err e s3 =>
        simp only [hcro, final_gstore, Option.some.injEq] at h
        have h3 : s3.gstore = s2.gstore :=
          check_required_options_gs (by rw [hcro]; rfl)
        rw [← h, h3, h2]
      | abort =>
        simp only [hcro, final_gstore] at h
        exact Option.noConfusion h
    | err e s2 =>
      simp only [hd, final_gstore, Option.some.injEq] at h
      have h2 : s2.gstore = s.gstore := handle_defaults_gs (by rw [hd]; rfl)
      rw [← h, h2]
    | abort =>
      simp only [hd, final_gstore] at h
      exact Option.noConfusion h
  | err e s1 =>
    simp only [hcra, final_gstore, Option.some.injEq] at h
    rw [← h, show s1 = s from cra_err_eq hcra]
  | abort =>
    simp only [hcra, final_gstore] at h
    exact Option.noConfusion h

theorem parse_args_gs {env : PEnv} {g : List OptionGroup} {T : List Str}
    {g1 : List OptionGroup}
    (h : final_gstore (parse_args env g T) = some g1) :
    reset_groups env.opts g1 = reset_groups env.opts g := by
  unfold parse_args pout_step at h
  cases hr : run_tokens env (init_state env g) T with
  | ok s =>
    simp only [hr] at h
    have h1 : g1 = s.gstore := parse_finish_gs h
    have h2 : reset_groups env.opts s.gstore =
        reset_groups env.opts (init_state env g).gstore :=
      run_tokens_gs T (init_state env g) (by rw [hr]; rfl)
    rw [h1, h2]
    exact reset_groups_idem env.opts g
  | err e s =>
    simp only [hr, final_gstore, Option.some.injEq] at h
    have h2 : reset_groups env.opts s.gstore =
        reset_groups env.opts (init_state env g).gstore :=
      run_tokens_gs T (init_state env g) (by rw [hr]; rfl)
    rw [← h, h2]
    exact reset_groups_idem env.opts g
  | abort =>
    simp only [hr, final_gstore] at h
    exact Option.noConfusion h

/-- C2: re-parsing against the same registry is stateless — for every
registry, every pair starting group-cell contents / token list, when a first
`parse_args` call returns (leaving the shared group cells as recorded in its
result), a second call on any token list yields exactly what a fresh parse
against the registry would yield: neither matched values (the `CommandLine`
is rebuilt from scratch) nor group selections (the start-of-parse
`set_selected(None)` sweep erases every reachable selection) leak from the
first parse into the second. -/
theorem reparse_matches_fresh_parse (env : PEnv) (g g1 : List OptionGroup)
    (T1 T2 : List Str)
    (h : final_gstore (parse_args env g T1) = some g1) :
    parse_args env g1 T2 = parse_args env g T2 := by
  have hg := parse_args_gs h
  unfold parse_args
  have hinit : init_state env g1 = init_state env g := by
    simp only [init_state, hg]
  rw [hinit]

theorem reparse_matches_fresh_parse_witness :
    final_gstore (parse_args env_group [grp_ab] [str "-a"]) =
        some [grp_ab_sel] ∧
    parse_args env_group [grp_ab_sel] [str "-b"] =
      parse_args env_group [grp_ab] [str "-b"] :=
  ⟨by decide, reparse_matches_fresh_parse env_group [grp_ab] [grp_ab_sel]
    [str "-a"] [str "-b"] (by decide)⟩
